import Mathlib

set_option maxRecDepth 100000

/-!
Verification of the partial-SVD routine `svds` from
`scipy/sparse/linalg/eigen/_svds.py` (together with its helpers
`_augmented_orthonormal_cols`, `_augmented_orthonormal_rows` and `_herm`).

Shallow embedding conventions:

* Scalars are modelled as exact rationals (`ℚ`), the real-dtype instantiation
  of the code; complex conjugation (`.conj()`) is then the identity, which we
  keep as an explicit `conj` so the data flow of the source is preserved.
  Dtype information, which is a phantom at the value level, is carried
  separately as a `Char` (the numpy dtype character, e.g. `'f'`, `'d'`).
* `np.sqrt` and the two external eigensolvers (`eigsh`, `lobpcg`) are
  oracle parameters (`Oracles`); the spec treats both solvers as external
  collaborators, and `svds` itself only composes around them.
* The global numpy random generator used by `_augmented_orthonormal_cols`
  (`np.random.randn`) is modelled as a fixed stream `g : ℕ → ℚ` together
  with a cursor that each call threads forward, mirroring the hidden global
  state.  The seeded generator `np.random.RandomState(52)` used to build the
  LOBPCG starting block is a pure function `randn52` of the requested shape.
* Matrices are lists of rows (`List (List ℚ)`), as numpy 2-d arrays; a
  separate explicit row-count argument is handed to the augmentation
  helpers because a list of zero rows forgets its column count, which the
  numpy array keeps in `.shape`.
* Raised `ValueError` / `KeyError` are modelled with `Except SvdsErr`; the
  order of the side effects that the claims talk about (construction of the
  Gram operator, dispatch to the eigensolver, the dtype probe, singular
  vector work) is recorded in an event trace.
-/

namespace SvdsModel

/-- Complex conjugation specialised to real scalars (the embedding works with
the real dtype instantiation of the code, where `x.conj() == x`). -/
def conj (x : ℚ) : ℚ := x

/-- `np.dot(v, u.conj())`: the (Hermitian) inner product used by the modified
Gram-Schmidt loop of `_augmented_orthonormal_cols`. -/
def dotc (v u : List ℚ) : ℚ := (List.zipWith (fun a b => a * conj b) v u).sum

/-- Plain dot product (no conjugation), as used by matrix multiplication. -/
def dotL (v u : List ℚ) : ℚ := (List.zipWith (fun a b => a * b) v u).sum

/-- `A.dot(x)` for a dense matrix `A` (list of rows) and a vector `x`. -/
def matVecMul (M : List (List ℚ)) (v : List ℚ) : List ℚ :=
  M.map (fun row => dotL row v)

/-- `A.dot(B)` for dense matrices (rows representation). -/
def matMatMul (A B : List (List ℚ)) : List (List ℚ) :=
  A.map (fun row => (List.transpose B).map (fun col => dotL row col))

/-- `_herm(x) = x.T.conj()`. -/
def herm (x : List (List ℚ)) : List (List ℚ) :=
  (List.transpose x).map (List.map conj)

/-- Pointwise difference of two vectors. -/
def vsubV (v w : List ℚ) : List ℚ := List.zipWith (fun a b => a - b) v w

/-- Scalar multiple of a vector. -/
def smulV (c : ℚ) (u : List ℚ) : List ℚ := u.map (fun a => c * a)

/-- One projection-subtraction step of the modified Gram-Schmidt loop:
`v -= (np.dot(v, u.conj()) / np.dot(u, u.conj())) * u`. -/
def gsStep (v u : List ℚ) : List ℚ := vsubV v (smulV (dotc v u / dotc u u) u)

/-- The inner `for j in range(m+i)` loop: subtract the projections of `v`
onto every previously established column, sequentially. -/
def gsOrth (v : List ℚ) (cols : List (List ℚ)) : List ℚ := cols.foldl gsStep v

/-- `v /= np.sqrt(np.dot(v, v.conj()))`, with `np.sqrt` supplied as the
oracle `sq`. -/
def normalizeV (sq : ℚ → ℚ) (v : List ℚ) : List ℚ :=
  v.map (fun a => a / sq (dotc v v))

/-- `np.random.randn(n)` drawn from the global stream `g` at cursor `cur`. -/
def drawVec (g : ℕ → ℚ) (cur n : ℕ) : List ℚ :=
  (List.range n).map (fun t => g (cur + t))

/-- The `for i in range(k)` loop of `_augmented_orthonormal_cols`, acting on
the list of columns: draw a random vector of length `n`, orthogonalise it
against all existing columns, normalise, append; returns the extended column
list together with the advanced global-generator cursor. -/
def augLoop (sq : ℚ → ℚ) (g : ℕ → ℚ) (n : ℕ) :
    ℕ → List (List ℚ) → ℕ → List (List ℚ) × ℕ
  | 0, cols, cur => (cols, cur)
  | Nat.succ c, cols, cur =>
      let v := drawVec g cur n
      let w := gsOrth v cols
      augLoop sq g n c (cols ++ [normalizeV sq w]) (cur + n)

/-- `_augmented_orthonormal_cols(x, k)` on the rows representation.  `nRows`
is `x.shape[0]` (the length of each column), passed explicitly because a
list of zero rows loses it. -/
def augmented_orthonormal_cols (sq : ℚ → ℚ) (g : ℕ → ℚ) (nRows : ℕ)
    (x : List (List ℚ)) (k : ℕ) (cur : ℕ) : List (List ℚ) × ℕ :=
  let p := augLoop sq g nRows k (List.transpose x) cur
  (List.transpose p.1, p.2)

/-- `_augmented_orthonormal_rows(x, k) = _augmented_orthonormal_cols(x.T, k).T`.
`mRows` is `x.shape[1]`, i.e. `x.T.shape[0]`. -/
def augmented_orthonormal_rows (sq : ℚ → ℚ) (g : ℕ → ℚ) (mRows : ℕ)
    (x : List (List ℚ)) (k : ℕ) (cur : ℕ) : List (List ℚ) × ℕ :=
  let p := augmented_orthonormal_cols sq g mRows (List.transpose x) k cur
  (List.transpose p.1, p.2)

/-- A `scipy.sparse.linalg.LinearOperator`: shape, the four application
primitives, the `dtype` attribute (`Option.none` models `dtype is None`),
and `probeChar`, the dtype of `A.dot(np.zeros([m, 1]))` (the result of the
probing matrix-vector product, supplied as data because dtypes are phantoms
at the rational value level). -/
structure LinOp where
  n : ℕ
  m : ℕ
  matvec : List ℚ → List ℚ
  matmat : List (List ℚ) → List (List ℚ)
  rmatvec : List ℚ → List ℚ
  rmatmat : List (List ℚ) → List (List ℚ)
  dtypeAttr : Option Char
  probeChar : Char

/-- The input `A` of `svds`: either a plain dense/sparse matrix (rows
representation plus its dtype character) or a `LinearOperator`. -/
inductive AIn where
  | dense (x : List (List ℚ)) (dt : Char)
  | linop (op : LinOp)

/-- `n` of `n, m = A.shape`. -/
def rowsOf : AIn → ℕ
  | .dense x _ => x.length
  | .linop op => op.n

/-- `m` of `n, m = A.shape`. -/
def colsOf : AIn → ℕ
  | .dense x _ => (x.headD []).length
  | .linop op => op.m

/-- The four primitives `X_dot, X_matmat, XH_dot, XH_mat` selected by `svds`. -/
structure Prims where
  X_dot : List ℚ → List ℚ
  X_matmat : List (List ℚ) → List (List ℚ)
  XH_dot : List ℚ → List ℚ
  XH_mat : List (List ℚ) → List (List ℚ)

/-- The role assignment of the primitives (`if n > m: ... else: ...` for both
the `LinearOperator` and the plain matrix branch); a plain matrix realises
the adjoint primitives as multiplication by `_herm(A)`. -/
def selectPrims : AIn → Prims
  | .linop A =>
      if A.n > A.m then ⟨A.matvec, A.matmat, A.rmatvec, A.rmatmat⟩
      else ⟨A.rmatvec, A.rmatmat, A.matvec, A.matmat⟩
  | .dense x _ =>
      if x.length > (x.headD []).length then
        ⟨matVecMul x, matMatMul x, matVecMul (herm x), matMatMul (herm x)⟩
      else
        ⟨matVecMul (herm x), matMatMul (herm x), matVecMul x, matMatMul x⟩

/-- The `dtype` the code actually hands to the Gram `LinearOperator`:
`dtype=A.dtype` in the `LinearOperator(matvec=..., dtype=A.dtype, ...)`
call, i.e. the raw attribute, never the probed local variable. -/
def gramDtype : AIn → Option Char
  | .dense _ dt => some dt
  | .linop op => op.dtypeAttr

/-- Whether the dtype probe `A.dot(np.zeros([m, 1])).dtype` is executed: in
the source it sits inside the `else` (`n <= m`) branch of the
`LinearOperator` case, guarded by `dtype is None`. -/
def dtypeProbePerformed : AIn → Bool
  | .dense _ _ => false
  | .linop op => !(decide (op.n > op.m)) && op.dtypeAttr.isNone

/-- The final value of the local variable `dtype` of `svds` on the only path
where it is assigned (`LinearOperator`, `n <= m`): the attribute when
present, otherwise the probed dtype.  The source never reads this variable
again. -/
def dtypeLocalResolved : AIn → Option Char
  | .dense _ _ => none
  | .linop op => if op.n > op.m then none else some (op.dtypeAttr.getD op.probeChar)

/-- The Gram operator `XH_X` built by `svds`: a `LinearOperator` given only
by its closures (no matrix is ever materialised), with shape
`(min(A.shape), min(A.shape))` and `dtype=A.dtype`. -/
structure GramOp where
  shape : ℕ × ℕ
  matvec : List ℚ → List ℚ
  matmat : List (List ℚ) → List (List ℚ)
  dtype : Option Char

/-- `XH_X = LinearOperator(matvec=matvec_XH_X, dtype=A.dtype, matmat=matmat_XH_X,
shape=(min(A.shape), min(A.shape)))` with `matvec_XH_X(x) = XH_dot(X_dot(x))`
and `matmat_XH_X(x) = XH_mat(X_matmat(x))`. -/
def buildGram (A : AIn) : GramOp :=
  ⟨(min (rowsOf A) (colsOf A), min (rowsOf A) (colsOf A)),
   fun x => (selectPrims A).XH_dot ((selectPrims A).X_dot x),
   fun x => (selectPrims A).XH_mat ((selectPrims A).X_matmat x),
   gramDtype A⟩

/-- Result of an external eigensolver call: `k` eigenvalues (real, as the
spec notes any imaginary residue is discarded by the caller), the
eigenvector matrix (`min(A.shape) × k`, rows representation), and the dtype
character of the eigenvector array (`eigvec.dtype.char`). -/
structure EigResult where
  eigvals : List ℚ
  eigvec : List (List ℚ)
  dchar : Char

/-- The external capabilities `svds` composes around: `np.sqrt`, the global
generator stream, the seeded `RandomState(52).randn(rows, cols)` generator,
and the two eigensolver backends with the argument lists the source passes
(`lobpcg(XH_X, X, tol=tol**2, maxiter=maxiter, largest=largest)` and
`eigsh(XH_X, k=k, tol=tol**2, maxiter=maxiter, ncv=ncv, which=which, v0=v0)`). -/
structure Oracles where
  sq : ℚ → ℚ
  g : ℕ → ℚ
  randn52 : ℕ → ℕ → List (List ℚ)
  lobpcg : GramOp → List (List ℚ) → ℚ → Option ℕ → Bool → EigResult
  eigsh : GramOp → ℕ → ℚ → Option ℕ → Option ℕ → String → Option (List ℚ) → EigResult

/-- The `return_singular_vectors` argument: `vecs` is Python `True`,
`novecs` is `False`, `u` and `vh` the two string modes. -/
inductive RSV where
  | vecs | novecs | u | vh
deriving DecidableEq

/-- The `ValueError` / `KeyError` conditions `svds` can raise. -/
inductive SvdsErr where
  | whichErr | kErr | solverErr | keyError (t : Char)
deriving DecidableEq

/-- Observable steps of one `svds` call, in execution order. -/
inductive Ev where
  | dtypeProbe | gramConstructed | eigsolverCalled | vectorWork
deriving DecidableEq

/-- What a successful `svds` call returns: just the sorted values
(`return_singular_vectors` false) or the `u, s, vh` triple where the
unrequested sides are `None`. -/
inductive SvdsOut where
  | vals (s : List ℚ)
  | triple (u : Option (List (List ℚ))) (s : List ℚ) (vh : Option (List (List ℚ)))
deriving DecidableEq

instance : DecidableEq (Except SvdsErr SvdsOut) := fun x y =>
  match x, y with
  | .ok a, .ok b => decidable_of_iff (a = b) (by simp)
  | .error a, .error b => decidable_of_iff (a = b) (by simp)
  | .ok _, .error _ => isFalse (by simp)
  | .error _, .ok _ => isFalse (by simp)

/-- Result of one `svds` call: the outcome, the advanced global-generator
cursor, and the recorded event trace. -/
structure SvdsResult where
  out : Except SvdsErr SvdsOut
  cursor : ℕ
  trace : List Ev
deriving DecidableEq

/-- `np.finfo(t).eps` for the two supported precision characters. -/
def npEps (t : Char) : ℚ := if t = 'f' then 1 / 2 ^ 23 else if t = 'd' then 1 / 2 ^ 52 else 0

/-- The dict `factor = {'f': 1E3, 'd': 1E6}`; `Option.none` models the
`KeyError` raised by `factor[t]` for any other key. -/
def factorTable (t : Char) : Option ℚ :=
  if t = 'f' then some 1000 else if t = 'd' then some 1000000 else none

/-- Outcome of the degeneracy classifier (source lines: clamp, `factor`,
`cond`, `cutoff`, `above_cutoff`, `nlarge`, `slarge`, `s`). -/
structure ClassifyOut where
  cutoff : ℚ
  mask : List Bool
  nlarge : ℕ
  slarge : List ℚ
  s : List ℚ
deriving DecidableEq

/-- The degeneracy classifier and thresholder:
`eigvals = np.maximum(eigvals.real, 0)`, `t = eigvec.dtype.char.lower()`,
`cond = factor[t] * np.finfo(t).eps`, `cutoff = cond * np.max(eigvals)`,
`above_cutoff = (eigvals > cutoff)`, `slarge = np.sqrt(eigvals[above_cutoff])`,
`s = np.zeros_like(eigvals); s[:nlarge] = slarge`.  (`np.max` of the clamped,
hence non-negative, eigenvalue array is its fold with `max` from `0`.) -/
def classify (sq : ℚ → ℚ) (eigvals0 : List ℚ) (dchar : Char) :
    Except SvdsErr ClassifyOut :=
  let eigvals := eigvals0.map (fun x => max x 0)
  let t := dchar.toLower
  match factorTable t with
  | none => .error (.keyError t)
  | some factor =>
      let cond := factor * npEps t
      let cutoff := cond * eigvals.foldr max 0
      let mask := eigvals.map (fun x => decide (x > cutoff))
      let slarge := (eigvals.filter (fun x => decide (x > cutoff))).map sq
      .ok ⟨cutoff, mask, slarge.length,
           slarge, slarge ++ List.replicate (eigvals.length - slarge.length) 0⟩

/-- `M[:, mask]`: keep the columns selected by the boolean mask. -/
def maskCols (mask : List Bool) (M : List (List ℚ)) : List (List ℚ) :=
  M.map (fun row => (row.zip mask).filterMap (fun p => if p.2 then some p.1 else none))

/-- `M / s` with numpy broadcasting of the length-`nlarge` vector `s` over
the rows of the `? × nlarge` matrix `M`: column `j` is divided by `s[j]`. -/
def divColsByVec (M : List (List ℚ)) (s : List ℚ) : List (List ℚ) :=
  M.map (fun row => List.zipWith (fun a b => a / b) row s)

/-- `np.sort` (ascending). -/
def npSort (s : List ℚ) : List ℚ := s.mergeSort (fun a b => decide (a ≤ b))

/-- `np.argsort`. -/
def argsort (s : List ℚ) : List ℕ :=
  (List.range s.length).mergeSort (fun i j => decide (s.getD i 0 ≤ s.getD j 0))

/-- `s[idx]` for an index array. -/
def permList (idx : List ℕ) (s : List ℚ) : List ℚ := idx.map (fun i => s.getD i 0)

/-- `M[:, idx]` for an index array. -/
def permCols (idx : List ℕ) (M : List (List ℚ)) : List (List ℚ) :=
  M.map (fun row => idx.map (fun i => row.getD i 0))

/-- `M[idx]` for an index array. -/
def permRows (idx : List ℕ) (M : List (List ℚ)) : List (List ℚ) :=
  idx.map (fun i => M.getD i [])

/-- The `ularge` / `vhlarge` pair produced by the `if n > m: ... else: ...`
block of the result assembler (`None` marks a side whose expensive operator
application was skipped). -/
structure VecOut where
  ularge : Option (List (List ℚ))
  vhlarge : Option (List (List ℚ))

/-- The singular-vector assembly block of `svds`:
for `n > m`, `vlarge = eigvec[:, above_cutoff]`,
`ularge = X_matmat(vlarge) / slarge if return_singular_vectors != 'vh' else None`,
`vhlarge = _herm(vlarge)`; symmetrically otherwise. -/
def vectorStage (p : Prims) (ngtm : Bool) (rsv : RSV) (eigvec : List (List ℚ))
    (mask : List Bool) (slarge : List ℚ) : VecOut :=
  if ngtm then
    ⟨if rsv ≠ RSV.vh then some (divColsByVec (p.X_matmat (maskCols mask eigvec)) slarge)
      else none,
     some (herm (maskCols mask eigvec))⟩
  else
    ⟨some (maskCols mask eigvec),
     if rsv ≠ RSV.u then some (herm (divColsByVec (p.X_matmat (maskCols mask eigvec)) slarge))
      else none⟩

/-- `u = _augmented_orthonormal_cols(ularge, nsmall) if ularge is not None else None`
followed by the same for `vh` with `_augmented_orthonormal_rows`; both draw
from the global generator, in this order, so the cursor threads from the
first call into the second. -/
def augStage (sq : ℚ → ℚ) (g : ℕ → ℚ) (n m nsmall : ℕ) (vo : VecOut) (cur : ℕ) :
    Option (List (List ℚ)) × Option (List (List ℚ)) × ℕ :=
  match vo.ularge, vo.vhlarge with
  | some x, some y =>
      let p := augmented_orthonormal_cols sq g n x nsmall cur
      let q := augmented_orthonormal_rows sq g m y nsmall p.2
      (some p.1, some q.1, q.2)
  | some x, none =>
      let p := augmented_orthonormal_cols sq g n x nsmall cur
      (some p.1, none, p.2)
  | none, some y =>
      let q := augmented_orthonormal_rows sq g m y nsmall cur
      (none, some q.1, q.2)
  | none, none => (none, none, cur)

/-- The final reordering: `indexes_sorted = np.argsort(s)`, then `s`, the
columns of `u` and the rows of `vh` are permuted by the same index array. -/
def sortStage (u : Option (List (List ℚ))) (s : List ℚ)
    (vh : Option (List (List ℚ))) : SvdsOut :=
  .triple (u.map (permCols (argsort s))) (permList (argsort s) s)
    (vh.map (permRows (argsort s)))

/-- Everything `svds` does after the eigensolver returned: clamp and
classify, short-circuit on `return_singular_vectors` false with
`np.sort(s)`, otherwise assemble, augment and sort the vectors. -/
def svdsPost (oc : Oracles) (p : Prims) (n m kk : ℕ) (rsv : RSV)
    (er : EigResult) (cur : ℕ) (tr : List Ev) : SvdsResult :=
  match classify oc.sq er.eigvals er.dchar with
  | .error e => ⟨.error e, cur, tr⟩
  | .ok c =>
      if rsv = RSV.novecs then ⟨.ok (.vals (npSort c.s)), cur, tr⟩
      else
        let vo := vectorStage p (decide (n > m)) rsv er.eigvec c.mask c.slarge
        let a := augStage oc.sq oc.g n m (kk - c.nlarge) vo cur
        ⟨.ok (sortStage a.1 c.s a.2.1), a.2.2, tr ++ [Ev.vectorWork]⟩

/-- The LOBPCG starting block: `np.reshape(v0, (-1, 1))` when `k == 1 and
v0 is not None`, else `np.random.RandomState(52).randn(min(A.shape), k)`. -/
def lobpcgInitBlock (oc : Oracles) (A : AIn) (k : ℕ) (v0 : Option (List ℚ)) :
    List (List ℚ) :=
  if k = 1 ∧ v0.isSome then (v0.getD []).map (fun a => [a])
  else oc.randn52 (min (rowsOf A) (colsOf A)) k

/-- The full `svds(A, k, ncv, tol, which, v0, maxiter, return_singular_vectors,
solver)` call, threading the global-generator cursor and recording the event
trace.  Validation order follows the source: `which`, then `k`, then (after
the Gram operator has been built) the `solver` selector. -/
def svds (oc : Oracles) (A : AIn) (k : ℕ) (ncv : Option ℕ) (tol : ℚ)
    (which : String) (v0 : Option (List ℚ)) (maxiter : Option ℕ) (rsv : RSV)
    (solver : Option String) (cur : ℕ) : SvdsResult :=
  if which = "LM" ∨ which = "SM" then
    if k = 0 ∨ min (rowsOf A) (colsOf A) ≤ k then ⟨.error .kErr, cur, []⟩
    else
      let tr := (if dtypeProbePerformed A then [Ev.dtypeProbe] else []) ++
        [Ev.gramConstructed]
      if solver = some "lobpcg" then
        svdsPost oc (selectPrims A) (rowsOf A) (colsOf A) k rsv
          (oc.lobpcg (buildGram A) (lobpcgInitBlock oc A k v0) (tol ^ 2) maxiter
            (which = "LM"))
          cur (tr ++ [Ev.eigsolverCalled])
      else if solver = some "arpack" ∨ solver = none then
        svdsPost oc (selectPrims A) (rowsOf A) (colsOf A) k rsv
          (oc.eigsh (buildGram A) k (tol ^ 2) maxiter ncv which v0)
          cur (tr ++ [Ev.eigsolverCalled])
      else ⟨.error .solverErr, cur, tr⟩
  else ⟨.error .whichErr, cur, []⟩

/-- Extract the `vh` component of a (successful, vector-returning) result. -/
def resultVh (r : SvdsResult) : Option (List (List ℚ)) :=
  match r.out with
  | .ok (.triple _ _ vh) => vh
  | _ => none

/-- Extract the `u` component of a (successful, vector-returning) result. -/
def resultU (r : SvdsResult) : Option (List (List ℚ)) :=
  match r.out with
  | .ok (.triple u _ _) => u
  | _ => none

/-- Extract the singular-value array of a successful result. -/
def resultS (r : SvdsResult) : Option (List ℚ) :=
  match r.out with
  | .ok (.vals s) => some s
  | .ok (.triple _ s _) => some s
  | .error _ => none

/-- A column list is orthonormal: every column has length `n` and unit
Hermitian norm, and distinct columns are orthogonal. -/
def orthonormalCols (n : ℕ) (cols : List (List ℚ)) : Prop :=
  (∀ u ∈ cols, u.length = n ∧ dotc u u = 1) ∧
    cols.Pairwise (fun a b => dotc a b = 0)

/-- Exactness side condition on the `np.sqrt` oracle along one run of the
augmentation loop: at every iteration the orthogonalised residual `w` is
non-zero and `sq` returns an exact square root of its norm square.  (Over
the exact rationals a global square-root function cannot exist, so the
hypothesis is stated pointwise along the run.) -/
def goodRunB (sq : ℚ → ℚ) (g : ℕ → ℚ) (n : ℕ) : ℕ → List (List ℚ) → ℕ → Bool
  | 0, _, _ => true
  | Nat.succ c, cols, cur =>
      let w := gsOrth (drawVec g cur n) cols
      (decide (dotc w w ≠ 0) && decide (sq (dotc w w) * sq (dotc w w) = dotc w w)) &&
        goodRunB sq g n c (cols ++ [normalizeV sq w]) (cur + n)

/-! ### Concrete instances used by the counterexamples and witnesses -/

/-- A square-root oracle exact on the handful of values the concrete runs
meet, and `0` elsewhere (so it is non-negative everywhere). -/
def exSq : ℚ → ℚ := fun x =>
  if x = 4 then 2 else if x = 25 then 5 else if x = 100 then 10 else
    if x = 9 then 3 else 0

/-- A concrete global-generator stream. -/
def exG : ℕ → ℚ := fun i => [(5 : ℚ), 0, 3, 4, 0, 6, 8, 0, 5, 0, 0, 0, 0, 3].getD i 0

/-- Eigensolver answer used in the `3 × 2`, `k = 1` scenario: one exact
eigenpair of the Gram operator of `exA` (eigenvalue `4`, eigenvector
`(1, 0)`), eigenvector dtype double. -/
def exER : EigResult := ⟨[4], [[1], [0]], 'd'⟩

/-- Oracles for the `3 × 2` scenario: both backends answer `exER`. -/
def exOC : Oracles := ⟨exSq, exG, fun _ _ => [], fun _ _ _ _ _ => exER,
  fun _ _ _ _ _ _ _ => exER⟩

/-- A dense `3 × 2` matrix (`n > m`), double dtype. -/
def exA : AIn := .dense [[2, 0], [0, 1], [0, 0]] 'd'

/-- Eigensolver answer for the `4 × 3`, `k = 2` LOBPCG scenario: eigenvalues
`4` and `0` with eigenvectors `(1,0,0)` and `(0,1,0)`, so one of the two
requested pairs is degenerate and padding is required. -/
def exER7 : EigResult := ⟨[4, 0], [[1, 0], [0, 1], [0, 0]], 'd'⟩

/-- Oracles for the LOBPCG scenario. -/
def exOC7 : Oracles := ⟨exSq, exG, fun _ _ => [], fun _ _ _ _ _ => exER7,
  fun _ _ _ _ _ _ _ => exER7⟩

/-- A dense `4 × 3` rank-3 matrix, double dtype. -/
def exA7 : AIn := .dense [[2, 0, 0], [0, 1, 0], [0, 0, 1], [0, 0, 0]] 'd'

/-- A `LinearOperator` of shape `3 × 2` (`n > m`) whose dtype attribute is
absent (`None`) and whose probing product would report dtype `'d'`. -/
def exOpTall : AIn := .linop ⟨3, 2, id, id, id, id, none, 'd'⟩

/-- The same operator with shape `2 × 3` (`n ≤ m`). -/
def exOpWide : AIn := .linop ⟨2, 3, id, id, id, id, none, 'd'⟩

/-- An eigensolver answer whose eigenvector array has half-precision dtype
character `'e'`, unsupported by the `factor` dict. -/
def exER10 : EigResult := ⟨[4], [[1], [0]], 'e'⟩

/-- Stream for the augmentation witness: the single drawn vector is `(3, 4)`. -/
def wG : ℕ → ℚ := fun i => [(3 : ℚ), 4].getD i 0

/-- Square-root oracle for the augmentation witness (`sqrt 16 = 4`). -/
def wSq : ℚ → ℚ := fun x => if x = 16 then 4 else 0

/-! ### Inner-product and Gram-Schmidt lemmas -/

theorem dotc_cons (a b : ℚ) (v u : List ℚ) :
    dotc (a :: v) (b :: u) = a * conj b + dotc v u := by
  simp [dotc]

theorem dotc_comm (v u : List ℚ) : dotc v u = dotc u v := by
  induction v generalizing u with
  | nil => cases u <;> simp [dotc]
  | cons a v ih =>
      cases u with
      | nil => simp [dotc]
      | cons b u => rw [dotc_cons, dotc_cons, ih]; simp [conj]; ring

theorem vsubV_cons (a b : ℚ) (v w : List ℚ) :
    vsubV (a :: v) (b :: w) = (a - b) :: vsubV v w := rfl

theorem smulV_cons (c a : ℚ) (u : List ℚ) :
    smulV c (a :: u) = (c * a) :: smulV c u := rfl

theorem dotc_vsub (v w u : List ℚ) (h : v.length = w.length) :
    dotc (vsubV v w) u = dotc v u - dotc w u := by
  induction v generalizing w u with
  | nil =>
      cases w with
      | nil => simp [vsubV, dotc]
      | cons b w => simp at h
  | cons a v ih =>
      cases w with
      | nil => simp at h
      | cons b w =>
          cases u with
          | nil => simp [dotc]
          | cons x u =>
              rw [vsubV_cons, dotc_cons, dotc_cons, dotc_cons,
                ih w u (by simpa using h)]
              simp [conj]; ring

theorem dotc_smul_left (c : ℚ) (u w : List ℚ) :
    dotc (smulV c u) w = c * dotc u w := by
  induction u generalizing w with
  | nil => simp [smulV, dotc]
  | cons a u ih =>
      cases w with
      | nil => simp [dotc]
      | cons b w => rw [smulV_cons, dotc_cons, dotc_cons, ih]; ring

theorem dotc_div_left (s : ℚ) (u w : List ℚ) :
    dotc (u.map (fun a => a / s)) w = dotc u w / s := by
  induction u generalizing w with
  | nil => simp [dotc]
  | cons a u ih =>
      cases w with
      | nil => simp [dotc]
      | cons b w =>
          rw [List.map_cons, dotc_cons, dotc_cons, ih]
          simp [conj]; ring

theorem dotc_div_right (s : ℚ) (u w : List ℚ) :
    dotc u (w.map (fun a => a / s)) = dotc u w / s := by
  rw [dotc_comm, dotc_div_left, dotc_comm]

theorem dotc_div_both (s : ℚ) (v w : List ℚ) :
    dotc (v.map (fun a => a / s)) (w.map (fun a => a / s)) = dotc v w / (s * s) := by
  rw [dotc_div_left, dotc_div_right, div_div]

theorem length_smulV (c : ℚ) (u : List ℚ) : (smulV c u).length = u.length :=
  List.length_map u _

theorem length_gsStep (v u : List ℚ) :
    (gsStep v u).length = min v.length u.length := by
  simp [gsStep, vsubV, smulV]

theorem length_normalizeV (sq : ℚ → ℚ) (v : List ℚ) :
    (normalizeV sq v).length = v.length := List.length_map v _

theorem length_drawVec (g : ℕ → ℚ) (cur n : ℕ) : (drawVec g cur n).length = n := by
  simp [drawVec]

theorem gsStep_dot_self (v u : List ℚ) (hu : dotc u u ≠ 0) (h : v.length = u.length) :
    dotc (gsStep v u) u = 0 := by
  rw [gsStep, dotc_vsub _ _ _ (by rw [length_smulV, h]), dotc_smul_left,
    div_mul_cancel₀ _ hu, sub_self]

theorem gsStep_dot_other (v u z : List ℚ) (hz : dotc u z = 0) (h : v.length = u.length) :
    dotc (gsStep v u) z = dotc v z := by
  rw [gsStep, dotc_vsub _ _ _ (by rw [length_smulV, h]), dotc_smul_left, hz,
    mul_zero, sub_zero]

theorem gsOrth_cons (v u : List ℚ) (cols : List (List ℚ)) :
    gsOrth v (u :: cols) = gsOrth (gsStep v u) cols := rfl

theorem length_gsOrth (cols : List (List ℚ)) (v : List ℚ) (n : ℕ)
    (hv : v.length = n) (hc : ∀ u ∈ cols, u.length = n) :
    (gsOrth v cols).length = n := by
  induction cols generalizing v with
  | nil => simpa [gsOrth]
  | cons u cols ih =>
      rw [gsOrth_cons]
      refine ih (gsStep v u) ?_ (fun x hx => hc x (by simp [hx]))
      rw [length_gsStep, hv, hc u (by simp), min_self]

theorem gsOrth_dot_zero (cols : List (List ℚ)) (v z : List ℚ) (n : ℕ)
    (hv : v.length = n) (hc : ∀ u ∈ cols, u.length = n) (hz0 : dotc v z = 0)
    (hcz : ∀ u ∈ cols, dotc u z = 0) :
    dotc (gsOrth v cols) z = 0 := by
  induction cols generalizing v with
  | nil => simpa [gsOrth]
  | cons u cols ih =>
      rw [gsOrth_cons]
      refine ih (gsStep v u) ?_ (fun x hx => hc x (by simp [hx])) ?_
        (fun x hx => hcz x (by simp [hx]))
      · rw [length_gsStep, hv, hc u (by simp), min_self]
      · rw [gsStep_dot_other v u z (hcz u (by simp)) (by rw [hv, hc u (by simp)])]
        exact hz0

theorem gsOrth_orthogonal (cols : List (List ℚ)) (v : List ℚ) (n : ℕ)
    (hv : v.length = n) (hc : ∀ u ∈ cols, u.length = n)
    (hnz : ∀ u ∈ cols, dotc u u ≠ 0)
    (hp : cols.Pairwise (fun a b => dotc a b = 0)) :
    ∀ u ∈ cols, dotc (gsOrth v cols) u = 0 := by
  induction cols generalizing v with
  | nil => intro u hu; simp at hu
  | cons u0 cols ih =>
      intro u hu
      rw [gsOrth_cons]
      rcases List.mem_cons.mp hu with rfl | hmem
      · refine gsOrth_dot_zero cols (gsStep v u) u n ?_
          (fun x hx => hc x (by simp [hx])) ?_ ?_
        · rw [length_gsStep, hv, hc u (by simp), min_self]
        · exact gsStep_dot_self v u (hnz u (by simp)) (by rw [hv, hc u (by simp)])
        · intro x hx
          rw [dotc_comm]
          exact (List.pairwise_cons.mp hp).1 x hx
      · exact ih (gsStep v u0)
          (by rw [length_gsStep, hv, hc u0 (by simp), min_self])
          (fun x hx => hc x (by simp [hx])) (fun x hx => hnz x (by simp [hx]))
          (List.pairwise_cons.mp hp).2 u hmem

theorem dotc_normalizeV_self (sq : ℚ → ℚ) (w : List ℚ)
    (h1 : dotc w w ≠ 0) (h2 : sq (dotc w w) * sq (dotc w w) = dotc w w) :
    dotc (normalizeV sq w) (normalizeV sq w) = 1 := by
  rw [normalizeV, dotc_div_both, h2, div_self h1]

theorem dotc_normalizeV_other (sq : ℚ → ℚ) (w u : List ℚ) (h : dotc w u = 0) :
    dotc (normalizeV sq w) u = 0 := by
  rw [normalizeV, dotc_div_left, h, zero_div]

/-! ### Augmentation loop lemmas -/

theorem augLoop_zero (sq : ℚ → ℚ) (g : ℕ → ℚ) (n : ℕ) (cols : List (List ℚ))
    (cur : ℕ) : augLoop sq g n 0 cols cur = (cols, cur) := rfl

theorem augLoop_succ (sq : ℚ → ℚ) (g : ℕ → ℚ) (n c : ℕ) (cols : List (List ℚ))
    (cur : ℕ) :
    augLoop sq g n (c + 1) cols cur =
      augLoop sq g n c
        (cols ++ [normalizeV sq (gsOrth (drawVec g cur n) cols)]) (cur + n) := rfl

theorem goodRunB_succ (sq : ℚ → ℚ) (g : ℕ → ℚ) (n c : ℕ) (cols : List (List ℚ))
    (cur : ℕ) :
    goodRunB sq g n (c + 1) cols cur =
      ((decide (dotc (gsOrth (drawVec g cur n) cols) (gsOrth (drawVec g cur n) cols) ≠ 0) &&
        decide (sq (dotc (gsOrth (drawVec g cur n) cols) (gsOrth (drawVec g cur n) cols)) *
            sq (dotc (gsOrth (drawVec g cur n) cols) (gsOrth (drawVec g cur n) cols)) =
          dotc (gsOrth (drawVec g cur n) cols) (gsOrth (drawVec g cur n) cols))) &&
        goodRunB sq g n c
          (cols ++ [normalizeV sq (gsOrth (drawVec g cur n) cols)]) (cur + n)) := rfl

theorem augLoop_prefix (sq : ℚ → ℚ) (g : ℕ → ℚ) (n c : ℕ) :
    ∀ (cols : List (List ℚ)) (cur : ℕ),
      ∃ rest, (augLoop sq g n c cols cur).1 = cols ++ rest ∧ rest.length = c := by
  induction c with
  | zero => exact fun cols cur => ⟨[], by simp [augLoop_zero]⟩
  | succ c ih =>
      intro cols cur
      obtain ⟨rest, h1, h2⟩ :=
        ih (cols ++ [normalizeV sq (gsOrth (drawVec g cur n) cols)]) (cur + n)
      refine ⟨normalizeV sq (gsOrth (drawVec g cur n) cols) :: rest, ?_, by simp [h2]⟩
      rw [augLoop_succ, h1]
      simp

theorem augLoop_cursor (sq : ℚ → ℚ) (g : ℕ → ℚ) (n c : ℕ) :
    ∀ (cols : List (List ℚ)) (cur : ℕ),
      (augLoop sq g n c cols cur).2 = cur + c * n := by
  induction c with
  | zero => simp [augLoop_zero]
  | succ c ih =>
      intro cols cur
      rw [augLoop_succ, ih]
      ring

theorem augLoop_indep (sq : ℚ → ℚ) (g : ℕ → ℚ) (n c : ℕ) (hn : n = 0 ∨ c = 0) :
    ∀ (cols : List (List ℚ)) (cur cur' : ℕ),
      (augLoop sq g n c cols cur).1 = (augLoop sq g n c cols cur').1 := by
  rcases hn with rfl | rfl
  · induction c with
    | zero => simp [augLoop_zero]
    | succ c ih =>
        intro cols cur cur'
        rw [augLoop_succ, augLoop_succ]
        have hd : ∀ x : ℕ, drawVec g x 0 = [] := fun x => rfl
        rw [hd cur, hd cur']
        exact ih _ _ _
  · simp [augLoop_zero]

theorem orthonormalCols_append (n : ℕ) (cols : List (List ℚ)) (cnew : List ℚ)
    (h : orthonormalCols n cols) (hl : cnew.length = n) (hn : dotc cnew cnew = 1)
    (ho : ∀ u ∈ cols, dotc u cnew = 0) :
    orthonormalCols n (cols ++ [cnew]) := by
  constructor
  · intro u hu
    rcases List.mem_append.mp hu with h1 | h1
    · exact h.1 u h1
    · simp only [List.mem_singleton] at h1
      subst h1; exact ⟨hl, hn⟩
  · rw [List.pairwise_append]
    refine ⟨h.2, by simp, ?_⟩
    intro a ha b hb
    simp only [List.mem_singleton] at hb
    subst hb; exact ho a ha

theorem augLoop_orthonormal (sq : ℚ → ℚ) (g : ℕ → ℚ) (n c : ℕ) :
    ∀ (cols : List (List ℚ)) (cur : ℕ),
      orthonormalCols n cols → goodRunB sq g n c cols cur = true →
      orthonormalCols n (augLoop sq g n c cols cur).1 := by
  induction c with
  | zero => intro cols cur h _; simpa [augLoop_zero]
  | succ c ih =>
      intro cols cur h hrun
      rw [goodRunB_succ] at hrun
      simp only [Bool.and_eq_true, decide_eq_true_eq] at hrun
      obtain ⟨⟨hne, hsq⟩, hrun2⟩ := hrun
      rw [augLoop_succ]
      refine ih _ _ ?_ hrun2
      have hlen : ∀ u ∈ cols, u.length = n := fun u hu => (h.1 u hu).1
      have hnz : ∀ u ∈ cols, dotc u u ≠ 0 := fun u hu => by
        rw [(h.1 u hu).2]; exact one_ne_zero
      have hwlen : (gsOrth (drawVec g cur n) cols).length = n :=
        length_gsOrth cols _ n (length_drawVec g cur n) hlen
      have hworth : ∀ u ∈ cols, dotc (gsOrth (drawVec g cur n) cols) u = 0 :=
        gsOrth_orthogonal cols _ n (length_drawVec g cur n) hlen hnz h.2
      refine orthonormalCols_append n cols _ h ?_ ?_ ?_
      · rw [length_normalizeV, hwlen]
      · exact dotc_normalizeV_self sq _ hne hsq
      · intro u hu
        rw [dotc_comm]
        exact dotc_normalizeV_other sq _ u (hworth u hu)

/-! ### Sorting lemmas -/

theorem map_getD_range (l : List ℚ) :
    (List.range l.length).map (fun i => l.getD i 0) = l := by
  apply List.ext_getElem
  · simp
  · intro n h1 h2
    simp only [List.getElem_map, List.getElem_range]
    exact List.getD_eq_getElem l 0 h2

theorem argsort_perm (s : List ℚ) : (argsort s).Perm (List.range s.length) :=
  List.mergeSort_perm _ _

theorem length_argsort (s : List ℚ) : (argsort s).length = s.length := by
  rw [argsort, List.length_mergeSort, List.length_range]

theorem permList_argsort_perm (s : List ℚ) : (permList (argsort s) s).Perm s := by
  have h := (argsort_perm s).map (fun i => s.getD i 0)
  rw [map_getD_range] at h
  exact h

theorem sorted_permList_argsort (s : List ℚ) :
    List.Sorted (fun a b : ℚ => a ≤ b) (permList (argsort s) s) := by
  have h := @List.sorted_mergeSort ℕ (fun i j => decide (s.getD i 0 ≤ s.getD j 0))
    (fun a b c h1 h2 => by
      simp only [decide_eq_true_eq] at h1 h2 ⊢
      exact le_trans h1 h2)
    (fun a b => by
      simp only [Bool.or_eq_true, decide_eq_true_eq]
      exact le_total _ _)
    (List.range s.length)
  exact List.Pairwise.map _ (fun a b hab => of_decide_eq_true hab) h

theorem npSort_perm (s : List ℚ) : (npSort s).Perm s := List.mergeSort_perm _ _

theorem sorted_npSort (s : List ℚ) :
    List.Sorted (fun a b : ℚ => a ≤ b) (npSort s) := by
  have h := @List.sorted_mergeSort ℚ (fun a b => decide (a ≤ b))
    (fun a b c h1 h2 => by
      simp only [decide_eq_true_eq] at h1 h2 ⊢
      exact le_trans h1 h2)
    (fun a b => by
      simp only [Bool.or_eq_true, decide_eq_true_eq]
      exact le_total _ _)
    s
  exact h.imp (fun hab => of_decide_eq_true hab)

theorem npSort_eq_permList_argsort (s : List ℚ) :
    npSort s = permList (argsort s) s :=
  List.eq_of_perm_of_sorted ((npSort_perm s).trans (permList_argsort_perm s).symm)
    (sorted_npSort s) (sorted_permList_argsort s)

theorem length_permList (idx : List ℕ) (s : List ℚ) :
    (permList idx s).length = idx.length := List.length_map idx _

theorem permList_nonneg (idx : List ℕ) (s : List ℚ) (h : ∀ x ∈ s, 0 ≤ x) :
    ∀ x ∈ permList idx s, 0 ≤ x := by
  intro x hx
  simp only [permList, List.mem_map] at hx
  obtain ⟨i, _, rfl⟩ := hx
  by_cases hi : i < s.length
  · rw [List.getD_eq_getElem s 0 hi]
    exact h _ (List.getElem_mem hi)
  · rw [List.getD_eq_default s 0 (le_of_not_lt hi)]

/-! ### Maximum-fold lemmas (for `np.max` on the clamped eigenvalues) -/

theorem foldr_max_nonneg (l : List ℚ) : 0 ≤ l.foldr max 0 := by
  induction l with
  | nil => simp
  | cons a l ih =>
      simp only [List.foldr_cons]
      exact le_trans ih (le_max_right a _)

theorem le_foldr_max (l : List ℚ) : ∀ x ∈ l, x ≤ l.foldr max 0 := by
  induction l with
  | nil => simp
  | cons a l ih =>
      intro x hx
      rcases List.mem_cons.mp hx with rfl | hx
      · exact le_max_left _ _
      · exact le_trans (ih x hx) (le_max_right _ _)

theorem foldr_max_mem (l : List ℚ) (h0 : ∀ x ∈ l, 0 ≤ x) (hne : l ≠ []) :
    l.foldr max 0 ∈ l := by
  induction l with
  | nil => exact absurd rfl hne
  | cons a l ih =>
      cases l with
      | nil =>
          simp only [List.foldr_cons, List.foldr_nil]
          rw [max_eq_left (h0 a (by simp))]
          simp
      | cons b t =>
          rw [List.foldr_cons]
          rcases le_total (List.foldr max 0 (b :: t)) a with hle | hle
          · rw [max_eq_left hle]; simp
          · rw [max_eq_right hle]
            have hmem := ih (fun x hx => h0 x (by simp [List.mem_cons.mp hx])) (by simp)
            exact List.mem_cons_of_mem a hmem

/-! ### Classifier lemmas -/

theorem factorTable_nonneg (t : Char) (fa : ℚ) (h : factorTable t = some fa) :
    0 ≤ fa := by
  unfold factorTable at h
  by_cases h1 : t = 'f'
  · rw [if_pos h1] at h
    simp only [Option.some.injEq] at h
    subst h; norm_num
  · rw [if_neg h1] at h
    by_cases h2 : t = 'd'
    · rw [if_pos h2] at h
      simp only [Option.some.injEq] at h
      subst h; norm_num
    · rw [if_neg h2] at h; exact absurd h (by simp)

theorem npEps_nonneg (t : Char) : 0 ≤ npEps t := by
  unfold npEps
  by_cases h1 : t = 'f'
  · rw [if_pos h1]; norm_num
  · rw [if_neg h1]
    by_cases h2 : t = 'd'
    · rw [if_pos h2]; norm_num
    · rw [if_neg h2]

theorem classify_spec (sq : ℚ → ℚ) (ev : List ℚ) (dchar : Char) (fa : ℚ)
    (hft : factorTable dchar.toLower = some fa) :
    classify sq ev dchar = .ok
      ⟨fa * npEps dchar.toLower * ((ev.map (fun x => max x 0)).foldr max 0),
       (ev.map (fun x => max x 0)).map (fun x =>
         decide (x > fa * npEps dchar.toLower * ((ev.map (fun x => max x 0)).foldr max 0))),
       (((ev.map (fun x => max x 0)).filter (fun x =>
         decide (x > fa * npEps dchar.toLower *
           ((ev.map (fun x => max x 0)).foldr max 0)))).map sq).length,
       ((ev.map (fun x => max x 0)).filter (fun x =>
         decide (x > fa * npEps dchar.toLower *
           ((ev.map (fun x => max x 0)).foldr max 0)))).map sq,
       ((ev.map (fun x => max x 0)).filter (fun x =>
         decide (x > fa * npEps dchar.toLower *
           ((ev.map (fun x => max x 0)).foldr max 0)))).map sq ++
         List.replicate ((ev.map (fun x => max x 0)).length -
           (((ev.map (fun x => max x 0)).filter (fun x =>
             decide (x > fa * npEps dchar.toLower *
               ((ev.map (fun x => max x 0)).foldr max 0)))).map sq).length) 0⟩ := by
  simp only [classify, hft]

theorem classify_keyError (sq : ℚ → ℚ) (ev : List ℚ) (dchar : Char)
    (hft : factorTable dchar.toLower = none) :
    classify sq ev dchar = .error (.keyError dchar.toLower) := by
  simp only [classify, hft]

theorem classify_s_nonneg (sq : ℚ → ℚ) (ev : List ℚ) (dchar : Char)
    (c : ClassifyOut) (hsq : ∀ x, 0 ≤ x → 0 ≤ sq x)
    (hc : classify sq ev dchar = .ok c) : ∀ x ∈ c.s, 0 ≤ x := by
  rcases hft : factorTable dchar.toLower with _ | fa
  · rw [classify_keyError sq ev dchar hft] at hc
    exact absurd hc (by simp)
  · rw [classify_spec sq ev dchar fa hft] at hc
    simp only [Except.ok.injEq] at hc
    subst hc
    intro x hx
    simp only [List.mem_append] at hx
    rcases hx with hx | hx
    · simp only [List.mem_map, List.mem_filter, decide_eq_true_eq] at hx
      obtain ⟨y, ⟨hy, hycut⟩, rfl⟩ := hx
      refine hsq y (le_trans ?_ (le_of_lt hycut))
      exact mul_nonneg (mul_nonneg (factorTable_nonneg _ _ hft) (npEps_nonneg _))
        (foldr_max_nonneg _)
    · rw [(List.mem_replicate.mp hx).2]

theorem classify_s_length (sq : ℚ → ℚ) (ev : List ℚ) (dchar : Char)
    (c : ClassifyOut) (hc : classify sq ev dchar = .ok c) :
    c.s.length = ev.length := by
  rcases hft : factorTable dchar.toLower with _ | fa
  · rw [classify_keyError sq ev dchar hft] at hc
    exact absurd hc (by simp)
  · rw [classify_spec sq ev dchar fa hft] at hc
    simp only [Except.ok.injEq] at hc
    subst hc
    simp only [List.length_append, List.length_replicate, List.length_map]
    have hle := List.length_filter_le (fun x =>
      decide (x > fa * npEps dchar.toLower * ((ev.map (fun x => max x 0)).foldr max 0)))
      (ev.map (fun x => max x 0))
    rw [List.length_map] at hle
    omega

/-! ### Post-solver stage lemmas -/

theorem svdsPost_classify_error (oc : Oracles) (p : Prims) (n m kk : ℕ) (rsv : RSV)
    (er : EigResult) (cur : ℕ) (tr : List Ev) (e : SvdsErr)
    (hc : classify oc.sq er.eigvals er.dchar = .error e) :
    svdsPost oc p n m kk rsv er cur tr = ⟨.error e, cur, tr⟩ := by
  simp only [svdsPost, hc]

theorem svdsPost_novecs (oc : Oracles) (p : Prims) (n m kk : ℕ)
    (er : EigResult) (cur : ℕ) (tr : List Ev) (c : ClassifyOut)
    (hc : classify oc.sq er.eigvals er.dchar = .ok c) :
    svdsPost oc p n m kk RSV.novecs er cur tr = ⟨.ok (.vals (npSort c.s)), cur, tr⟩ := by
  simp only [svdsPost, hc]
  rfl

theorem svdsPost_vecs (oc : Oracles) (p : Prims) (n m kk : ℕ) (rsv : RSV)
    (er : EigResult) (cur : ℕ) (tr : List Ev) (c : ClassifyOut)
    (hc : classify oc.sq er.eigvals er.dchar = .ok c) (hr : rsv ≠ RSV.novecs) :
    svdsPost oc p n m kk rsv er cur tr =
      ⟨.ok (sortStage
          (augStage oc.sq oc.g n m (kk - c.nlarge)
            (vectorStage p (decide (n > m)) rsv er.eigvec c.mask c.slarge) cur).1
          c.s
          (augStage oc.sq oc.g n m (kk - c.nlarge)
            (vectorStage p (decide (n > m)) rsv er.eigvec c.mask c.slarge) cur).2.1),
       (augStage oc.sq oc.g n m (kk - c.nlarge)
         (vectorStage p (decide (n > m)) rsv er.eigvec c.mask c.slarge) cur).2.2,
       tr ++ [Ev.vectorWork]⟩ := by
  simp only [svdsPost, hc, if_neg hr]

theorem vectorStage_ularge_none (p : Prims) (ngtm : Bool) (rsv : RSV)
    (eigvec : List (List ℚ)) (mask : List Bool) (slarge : List ℚ) :
    (vectorStage p ngtm rsv eigvec mask slarge).ularge = none ↔
      (ngtm = true ∧ rsv = RSV.vh) := by
  cases ngtm
  · simp [vectorStage]
  · by_cases h : rsv = RSV.vh
    · simp [vectorStage, h]
    · simp [vectorStage, h]

theorem vectorStage_vhlarge_none (p : Prims) (ngtm : Bool) (rsv : RSV)
    (eigvec : List (List ℚ)) (mask : List Bool) (slarge : List ℚ) :
    (vectorStage p ngtm rsv eigvec mask slarge).vhlarge = none ↔
      (ngtm = false ∧ rsv = RSV.u) := by
  cases ngtm
  · by_cases h : rsv = RSV.u
    · simp [vectorStage, h]
    · simp [vectorStage, h]
  · simp [vectorStage]

theorem augStage_fst_none (sq : ℚ → ℚ) (g : ℕ → ℚ) (n m ns : ℕ) (vo : VecOut)
    (cur : ℕ) : (augStage sq g n m ns vo cur).1 = none ↔ vo.ularge = none := by
  rcases vo with ⟨u, v⟩
  cases u <;> cases v <;> simp [augStage]

theorem augStage_snd_none (sq : ℚ → ℚ) (g : ℕ → ℚ) (n m ns : ℕ) (vo : VecOut)
    (cur : ℕ) : (augStage sq g n m ns vo cur).2.1 = none ↔ vo.vhlarge = none := by
  rcases vo with ⟨u, v⟩
  cases u <;> cases v <;> simp [augStage]

theorem svdsPost_triple_presence (oc : Oracles) (p : Prims) (n m kk : ℕ) (rsv : RSV)
    (er : EigResult) (cur : ℕ) (tr : List Ev) (u : Option (List (List ℚ)))
    (s : List ℚ) (vh : Option (List (List ℚ)))
    (h : (svdsPost oc p n m kk rsv er cur tr).out = .ok (.triple u s vh)) :
    (u = none ↔ (n > m ∧ rsv = RSV.vh)) ∧ (vh = none ↔ (¬ n > m ∧ rsv = RSV.u)) := by
  rcases hc : classify oc.sq er.eigvals er.dchar with e | c
  · rw [svdsPost_classify_error oc p n m kk rsv er cur tr e hc] at h
    exact absurd h (by simp)
  · by_cases hr : rsv = RSV.novecs
    · subst hr
      rw [svdsPost_novecs oc p n m kk er cur tr c hc] at h
      exact absurd h (by simp)
    · rw [svdsPost_vecs oc p n m kk rsv er cur tr c hc hr] at h
      simp only [sortStage, Except.ok.injEq, SvdsOut.triple.injEq] at h
      obtain ⟨hu, _, hvh⟩ := h
      constructor
      · rw [← hu, Option.map_eq_none', augStage_fst_none, vectorStage_ularge_none]
        simp
      · rw [← hvh, Option.map_eq_none', augStage_snd_none, vectorStage_vhlarge_none]
        simp

/-! ### Top-level branch lemmas for `svds` -/

theorem svds_whichErr (oc : Oracles) (A : AIn) (k : ℕ) (ncv : Option ℕ) (tol : ℚ)
    (which : String) (v0 : Option (List ℚ)) (maxiter : Option ℕ) (rsv : RSV)
    (solver : Option String) (cur : ℕ)
    (hw : ¬ (which = "LM" ∨ which = "SM")) :
    svds oc A k ncv tol which v0 maxiter rsv solver cur = ⟨.error .whichErr, cur, []⟩ := by
  simp only [svds, if_neg hw]

theorem svds_kErr (oc : Oracles) (A : AIn) (k : ℕ) (ncv : Option ℕ) (tol : ℚ)
    (which : String) (v0 : Option (List ℚ)) (maxiter : Option ℕ) (rsv : RSV)
    (solver : Option String) (cur : ℕ)
    (hw : which = "LM" ∨ which = "SM")
    (hk : k = 0 ∨ min (rowsOf A) (colsOf A) ≤ k) :
    svds oc A k ncv tol which v0 maxiter rsv solver cur = ⟨.error .kErr, cur, []⟩ := by
  simp only [svds, if_pos hw, if_pos hk]

theorem svds_lobpcg (oc : Oracles) (A : AIn) (k : ℕ) (ncv : Option ℕ) (tol : ℚ)
    (which : String) (v0 : Option (List ℚ)) (maxiter : Option ℕ) (rsv : RSV)
    (solver : Option String) (cur : ℕ)
    (hw : which = "LM" ∨ which = "SM")
    (hk : ¬ (k = 0 ∨ min (rowsOf A) (colsOf A) ≤ k))
    (hs : solver = some "lobpcg") :
    svds oc A k ncv tol which v0 maxiter rsv solver cur =
      svdsPost oc (selectPrims A) (rowsOf A) (colsOf A) k rsv
        (oc.lobpcg (buildGram A) (lobpcgInitBlock oc A k v0) (tol ^ 2) maxiter
          (which = "LM"))
        cur ((if dtypeProbePerformed A then [Ev.dtypeProbe] else []) ++
          [Ev.gramConstructed] ++ [Ev.eigsolverCalled]) := by
  simp only [svds, if_pos hw, if_neg hk, if_pos hs, List.append_assoc]

theorem svds_arpack (oc : Oracles) (A : AIn) (k : ℕ) (ncv : Option ℕ) (tol : ℚ)
    (which : String) (v0 : Option (List ℚ)) (maxiter : Option ℕ) (rsv : RSV)
    (solver : Option String) (cur : ℕ)
    (hw : which = "LM" ∨ which = "SM")
    (hk : ¬ (k = 0 ∨ min (rowsOf A) (colsOf A) ≤ k))
    (hs1 : ¬ solver = some "lobpcg")
    (hs2 : solver = some "arpack" ∨ solver = none) :
    svds oc A k ncv tol which v0 maxiter rsv solver cur =
      svdsPost oc (selectPrims A) (rowsOf A) (colsOf A) k rsv
        (oc.eigsh (buildGram A) k (tol ^ 2) maxiter ncv which v0)
        cur ((if dtypeProbePerformed A then [Ev.dtypeProbe] else []) ++
          [Ev.gramConstructed] ++ [Ev.eigsolverCalled]) := by
  simp only [svds, if_pos hw, if_neg hk, if_neg hs1, if_pos hs2, List.append_assoc]

theorem svds_solverErr (oc : Oracles) (A : AIn) (k : ℕ) (ncv : Option ℕ) (tol : ℚ)
    (which : String) (v0 : Option (List ℚ)) (maxiter : Option ℕ) (rsv : RSV)
    (solver : Option String) (cur : ℕ)
    (hw : which = "LM" ∨ which = "SM")
    (hk : ¬ (k = 0 ∨ min (rowsOf A) (colsOf A) ≤ k))
    (hs1 : ¬ solver = some "lobpcg")
    (hs2 : ¬ (solver = some "arpack" ∨ solver = none)) :
    svds oc A k ncv tol which v0 maxiter rsv solver cur =
      ⟨.error .solverErr, cur,
       (if dtypeProbePerformed A then [Ev.dtypeProbe] else []) ++ [Ev.gramConstructed]⟩ := by
  simp only [svds, if_pos hw, if_neg hk, if_neg hs1, if_neg hs2]

theorem getD_replicate_self (c j : ℕ) (a : ℚ) : (List.replicate c a).getD j a = a := by
  by_cases hj : j < c
  · rw [List.getD_eq_getElem _ _ (by simpa using hj), List.getElem_replicate]
  · rw [List.getD_eq_default _ _ (by simpa using le_of_not_lt hj)]

/-! ### The claims -/

/-- C3: for every operator `A` of shape `(n, m)`, the forward primitives play
the role of `X` when `n > m` and the adjoint primitives otherwise; the Gram
operator has shape `min(n,m) × min(n,m)`, its vector-apply is
`XH_dot(X_dot(x))` and its matrix-apply is `XH_mat(X_matmat(x))` (it is given
only by these closures, never a materialised matrix); for a plain dense or
sparse matrix the adjoint primitives are multiplication by the explicit
conjugate transpose `_herm(A)`. -/
theorem C3_gram_operator (A : AIn) :
    (buildGram A).shape = (min (rowsOf A) (colsOf A), min (rowsOf A) (colsOf A)) ∧
    (∀ x, (buildGram A).matvec x = (selectPrims A).XH_dot ((selectPrims A).X_dot x)) ∧
    (∀ M, (buildGram A).matmat M = (selectPrims A).XH_mat ((selectPrims A).X_matmat M)) ∧
    (∀ op, A = .linop op → op.n > op.m →
      selectPrims A = ⟨op.matvec, op.matmat, op.rmatvec, op.rmatmat⟩) ∧
    (∀ op, A = .linop op → ¬ op.n > op.m →
      selectPrims A = ⟨op.rmatvec, op.rmatmat, op.matvec, op.matmat⟩) ∧
    (∀ x dt, A = .dense x dt → x.length > (x.headD []).length →
      selectPrims A = ⟨matVecMul x, matMatMul x, matVecMul (herm x), matMatMul (herm x)⟩) ∧
    (∀ x dt, A = .dense x dt → ¬ x.length > (x.headD []).length →
      selectPrims A = ⟨matVecMul (herm x), matMatMul (herm x), matVecMul x, matMatMul x⟩) := by
  refine ⟨rfl, fun x => rfl, fun M => rfl, ?_, ?_, ?_, ?_⟩
  · intro op hA h
    subst hA
    simp only [selectPrims]
    rw [if_pos h]
  · intro op hA h
    subst hA
    simp only [selectPrims]
    rw [if_neg h]
  · intro x dt hA h
    subst hA
    simp only [selectPrims]
    rw [if_pos h]
  · intro x dt hA h
    subst hA
    simp only [selectPrims]
    rw [if_neg h]

/-- C2: after the eigensolver returns `k` eigenvalues, each is clamped to
`max(real, 0)`, `cutoff = factor * eps * max(clamped)` with factor `1e3`
(`eps = 2^-23`) for single and `1e6` (`eps = 2^-52`) for double precision;
exactly the indices with clamped eigenvalue strictly above the cutoff are
reliable, and the length-`k` value array starts with the square roots of the
reliable eigenvalues (in returned order) followed by exact zeros. -/
theorem C2_cutoff_classification (sq : ℚ → ℚ) (ev : List ℚ) (dchar : Char) (k : ℕ)
    (hk : ev.length = k) (hk0 : 0 < k)
    (hfd : dchar.toLower = 'f' ∨ dchar.toLower = 'd') :
    ∃ c : ClassifyOut, classify sq ev dchar = .ok c ∧
      c.cutoff = (if dchar.toLower = 'f' then 1000 * (1 / 2 ^ 23)
          else 1000000 * (1 / 2 ^ 52)) * ((ev.map (fun x => max x 0)).foldr max 0) ∧
      (∀ x ∈ ev.map (fun x => max x 0), x ≤ (ev.map (fun x => max x 0)).foldr max 0) ∧
      ((ev.map (fun x => max x 0)).foldr max 0) ∈ ev.map (fun x => max x 0) ∧
      c.mask = (ev.map (fun x => max x 0)).map (fun x => decide (x > c.cutoff)) ∧
      c.nlarge = ((ev.map (fun x => max x 0)).filter
        (fun x => decide (x > c.cutoff))).length ∧
      c.s.length = k ∧
      (∀ i, i < c.nlarge → c.s.getD i 0 =
        sq (((ev.map (fun x => max x 0)).filter
          (fun x => decide (x > c.cutoff))).getD i 0)) ∧
      (∀ i, c.nlarge ≤ i → i < k → c.s.getD i 0 = 0) := by
  have hfa : ∃ fa : ℚ, factorTable dchar.toLower = some fa ∧
      fa = (if dchar.toLower = 'f' then (1000 : ℚ) else 1000000) ∧
      npEps dchar.toLower = (if dchar.toLower = 'f' then 1 / 2 ^ 23 else 1 / 2 ^ 52) := by
    rcases hfd with h | h
    · exact ⟨1000, by simp [factorTable, h], by simp [h], by simp [npEps, h]⟩
    · have hne : dchar.toLower ≠ 'f' := by rw [h]; decide
      exact ⟨1000000, by simp [factorTable, h, hne], by simp [h, hne],
        by simp [npEps, h, hne]⟩
  obtain ⟨fa, hft, hfav, hepsv⟩ := hfa
  refine ⟨_, classify_spec sq ev dchar fa hft, ?_, le_foldr_max _, ?_, rfl, ?_, ?_, ?_, ?_⟩
  · rw [hfav, hepsv]
    rcases hfd with h | h
    · simp [h]
    · have hne : dchar.toLower ≠ 'f' := by rw [h]; decide
      simp [hne]
  · refine foldr_max_mem _ (fun x hx => ?_) ?_
    · simp only [List.mem_map] at hx
      obtain ⟨y, _, rfl⟩ := hx
      exact le_max_right y 0
    · intro hcon
      rw [List.map_eq_nil_iff] at hcon
      rw [hcon] at hk
      simp at hk
      omega
  · simp [List.length_map]
  · simp only [List.length_append, List.length_replicate, List.length_map]
    have hle := List.length_filter_le (fun x =>
      decide (x > fa * npEps dchar.toLower * ((ev.map (fun x => max x 0)).foldr max 0)))
      (ev.map (fun x => max x 0))
    rw [List.length_map] at hle
    omega
  · intro i hi
    simp only [List.length_map] at hi
    rw [List.getD_append _ _ _ i (by simpa using hi)]
    rw [List.getD_eq_getElem _ 0 (by simpa using hi), List.getElem_map,
      List.getD_eq_getElem _ 0 hi]
  · intro i h1 h2
    rw [List.getD_append_right _ _ _ i (by simpa using h1)]
    have hz : ∀ j, (List.replicate ((ev.map (fun x => max x 0)).length -
        (((ev.map (fun x => max x 0)).filter (fun x =>
          decide (x > fa * npEps dchar.toLower *
            ((ev.map (fun x => max x 0)).foldr max 0)))).map sq).length) (0 : ℚ)).getD j 0 = 0 :=
      fun j => getD_replicate_self _ j 0
    exact hz _

/-- C10: whenever the working precision character of the eigenvector array,
lowered, is neither `'f'` nor `'d'`, the degeneracy-cutoff computation fails
with the unhandled lookup error of `factor[t]` (so the post-solver phase of
`svds` aborts); for `'f'` and `'d'` the classifier always succeeds. -/
theorem C10_unsupported_precision (oc : Oracles) (p : Prims) (n m kk : ℕ)
    (rsv : RSV) (er : EigResult) (cur : ℕ) (tr : List Ev)
    (h1 : er.dchar.toLower ≠ 'f') (h2 : er.dchar.toLower ≠ 'd') :
    svdsPost oc p n m kk rsv er cur tr =
      ⟨.error (.keyError er.dchar.toLower), cur, tr⟩ ∧
    (∀ t : Char, t.toLower = 'f' ∨ t.toLower = 'd' →
      ∀ (sq : ℚ → ℚ) (ev : List ℚ), ∃ c, classify sq ev t = .ok c) := by
  constructor
  · have hft : factorTable er.dchar.toLower = none := by
      simp [factorTable, h1, h2]
    exact svdsPost_classify_error _ _ _ _ _ _ _ _ _ _ (classify_keyError _ _ _ hft)
  · intro t ht sq ev
    rcases ht with h | h
    · exact ⟨_, classify_spec sq ev t 1000 (by simp [factorTable, h])⟩
    · have hne : t.toLower ≠ 'f' := by rw [h]; decide
      exact ⟨_, classify_spec sq ev t 1000000 (by simp [factorTable, h, hne])⟩

/-- C9 (code bug): the dtype probe `A.dot(np.zeros([m,1])).dtype` is executed
only in the `n <= m` branch of the `LinearOperator` case, and even there its
result (the local `dtype`) is discarded: the Gram operator is constructed
with `dtype=A.dtype`, the raw attribute.  At `exOpTall` (shape `3 × 2`,
dtype attribute absent) no probe happens and the Gram operator gets dtype
`None`; at `exOpWide` (shape `2 × 3`) the probe happens and resolves `'d'`,
yet the Gram operator still gets dtype `None`. -/
theorem C9_dtype_probe_dead :
    dtypeProbePerformed exOpTall = false ∧
    dtypeLocalResolved exOpTall = none ∧
    (buildGram exOpTall).dtype = none ∧
    dtypeProbePerformed exOpWide = true ∧
    dtypeLocalResolved exOpWide = some 'd' ∧
    (buildGram exOpWide).dtype = none :=
  ⟨rfl, rfl, rfl, rfl, rfl, rfl⟩

/-- C8: augmenting an orthonormal family of `p` columns of length `n` by `c`
randomised modified-Gram-Schmidt steps leaves the first `p` columns
unchanged and yields `p + c` mutually orthonormal columns (in exact
arithmetic, under the recorded side conditions that each residual is
non-zero and the square-root oracle is exact on its norm); consequently a
singular-vector matrix whose reliable columns are orthonormal stays
orthonormal after padding.  Row augmentation is the transpose of column
augmentation applied to the transposed matrix, and the rows-level column
augmenter is the transpose of the column-list loop. -/
theorem C8_augmentation (sq : ℚ → ℚ) (g : ℕ → ℚ) (n c : ℕ)
    (cols : List (List ℚ)) (cur : ℕ)
    (h : orthonormalCols n cols) (hrun : goodRunB sq g n c cols cur = true) :
    (augLoop sq g n c cols cur).1.take cols.length = cols ∧
    (augLoop sq g n c cols cur).1.length = cols.length + c ∧
    orthonormalCols n (augLoop sq g n c cols cur).1 ∧
    (∀ (mR : ℕ) (x : List (List ℚ)) (k cu : ℕ),
      augmented_orthonormal_rows sq g mR x k cu =
        (List.transpose (augmented_orthonormal_cols sq g mR (List.transpose x) k cu).1,
         (augmented_orthonormal_cols sq g mR (List.transpose x) k cu).2)) ∧
    (∀ (nR : ℕ) (x : List (List ℚ)) (k cu : ℕ),
      (augmented_orthonormal_cols sq g nR x k cu).1 =
        List.transpose (augLoop sq g nR k (List.transpose x) cu).1) := by
  obtain ⟨rest, h1, h2⟩ := augLoop_prefix sq g n c cols cur
  refine ⟨?_, ?_, augLoop_orthonormal sq g n c cols cur h hrun,
    fun mR x k cu => rfl, fun nR x k cu => rfl⟩
  · rw [h1]
    exact List.take_left cols rest
  · rw [h1]
    simp [h2]

theorem svdsPost_triple_s (oc : Oracles) (p : Prims) (n m kk : ℕ) (rsv : RSV)
    (er : EigResult) (cur : ℕ) (tr : List Ev)
    (u : Option (List (List ℚ))) (s : List ℚ) (vh : Option (List (List ℚ)))
    (hsq : ∀ x, 0 ≤ x → 0 ≤ oc.sq x) (hlen : er.eigvals.length = kk)
    (hout : (svdsPost oc p n m kk rsv er cur tr).out = .ok (.triple u s vh)) :
    s.length = kk ∧ (∀ x ∈ s, 0 ≤ x) ∧ List.Sorted (fun a b : ℚ => a ≤ b) s ∧
    ∃ (s0 : List ℚ) (u0 vh0 : Option (List (List ℚ))),
      s = permList (argsort s0) s0 ∧
      u = Option.map (permCols (argsort s0)) u0 ∧
      vh = Option.map (permRows (argsort s0)) vh0 ∧
      s0.length = kk ∧ (∀ x ∈ s0, 0 ≤ x) := by
  rcases hc : classify oc.sq er.eigvals er.dchar with e | c
  · rw [svdsPost_classify_error oc p n m kk rsv er cur tr e hc] at hout
    exact absurd hout (by simp)
  · by_cases hr : rsv = RSV.novecs
    · subst hr
      rw [svdsPost_novecs oc p n m kk er cur tr c hc] at hout
      exact absurd hout (by simp)
    · rw [svdsPost_vecs oc p n m kk rsv er cur tr c hc hr] at hout
      simp only [sortStage, Except.ok.injEq, SvdsOut.triple.injEq] at hout
      obtain ⟨hu, hs, hvh⟩ := hout
      have hslen : c.s.length = kk := by
        rw [classify_s_length oc.sq er.eigvals er.dchar c hc, hlen]
      have hsnn := classify_s_nonneg oc.sq er.eigvals er.dchar c hsq hc
      refine ⟨?_, ?_, ?_, c.s, _, _, hs.symm, hu.symm, hvh.symm, hslen, hsnn⟩
      · rw [← hs, length_permList, length_argsort, hslen]
      · rw [← hs]
        exact permList_nonneg _ _ hsnn
      · rw [← hs]
        exact sorted_permList_argsort c.s

theorem svdsPost_resultS_indep (oc : Oracles) (p : Prims) (n m kk : ℕ) (rsv : RSV)
    (er : EigResult) (tr : List Ev) (cur cur' : ℕ) :
    resultS (svdsPost oc p n m kk rsv er cur tr) =
      resultS (svdsPost oc p n m kk rsv er cur' tr) := by
  rcases hc : classify oc.sq er.eigvals er.dchar with e | c
  · rw [svdsPost_classify_error oc p n m kk rsv er cur tr e hc,
      svdsPost_classify_error oc p n m kk rsv er cur' tr e hc]
    rfl
  · by_cases hr : rsv = RSV.novecs
    · subst hr
      rw [svdsPost_novecs oc p n m kk er cur tr c hc,
        svdsPost_novecs oc p n m kk er cur' tr c hc]
      rfl
    · rw [svdsPost_vecs oc p n m kk rsv er cur tr c hc hr,
        svdsPost_vecs oc p n m kk rsv er cur' tr c hc hr]
      rfl

theorem augCols_cursor (sq : ℚ → ℚ) (g : ℕ → ℚ) (nR : ℕ) (x : List (List ℚ))
    (k cur : ℕ) :
    (augmented_orthonormal_cols sq g nR x k cur).2 = cur + k * nR :=
  augLoop_cursor sq g nR k _ cur

theorem augRows_cursor (sq : ℚ → ℚ) (g : ℕ → ℚ) (mR : ℕ) (x : List (List ℚ))
    (k cur : ℕ) :
    (augmented_orthonormal_rows sq g mR x k cur).2 = cur + k * mR :=
  augLoop_cursor sq g mR k _ cur

theorem augCols_fst_indep (sq : ℚ → ℚ) (g : ℕ → ℚ) (nR : ℕ) (x : List (List ℚ))
    (k : ℕ) (h : nR = 0 ∨ k = 0) (cur cur' : ℕ) :
    (augmented_orthonormal_cols sq g nR x k cur).1 =
      (augmented_orthonormal_cols sq g nR x k cur').1 := by
  simp only [augmented_orthonormal_cols]
  rw [augLoop_indep sq g nR k h _ cur cur']

theorem augRows_fst_indep (sq : ℚ → ℚ) (g : ℕ → ℚ) (mR : ℕ) (x : List (List ℚ))
    (k : ℕ) (h : mR = 0 ∨ k = 0) (cur cur' : ℕ) :
    (augmented_orthonormal_rows sq g mR x k cur).1 =
      (augmented_orthonormal_rows sq g mR x k cur').1 := by
  simp only [augmented_orthonormal_rows, augmented_orthonormal_cols]
  rw [augLoop_indep sq g mR k h _ cur cur']

theorem augStage_out_indep (sq : ℚ → ℚ) (g : ℕ → ℚ) (n m ns : ℕ) (vo : VecOut)
    (cur cur' : ℕ) (h : (augStage sq g n m ns vo cur).2.2 = cur) :
    (augStage sq g n m ns vo cur).1 = (augStage sq g n m ns vo cur').1 ∧
    (augStage sq g n m ns vo cur).2.1 = (augStage sq g n m ns vo cur').2.1 := by
  rcases vo with ⟨uo, vho⟩
  cases uo with
  | none =>
      cases vho with
      | none => exact ⟨rfl, rfl⟩
      | some y =>
          have h2 : (augmented_orthonormal_rows sq g m y ns cur).2 = cur := h
          rw [augRows_cursor] at h2
          have hm : m = 0 ∨ ns = 0 := by
            rcases Nat.mul_eq_zero.mp (by omega : ns * m = 0) with h3 | h3
            · exact Or.inr h3
            · exact Or.inl h3
          exact ⟨rfl, congrArg some (augRows_fst_indep sq g m y ns hm cur cur')⟩
  | some x =>
      cases vho with
      | none =>
          have h2 : (augmented_orthonormal_cols sq g n x ns cur).2 = cur := h
          rw [augCols_cursor] at h2
          have hn : n = 0 ∨ ns = 0 := by
            rcases Nat.mul_eq_zero.mp (by omega : ns * n = 0) with h3 | h3
            · exact Or.inr h3
            · exact Or.inl h3
          exact ⟨congrArg some (augCols_fst_indep sq g n x ns hn cur cur'), rfl⟩
      | some y =>
          have h2 : (augmented_orthonormal_rows sq g m y ns
              (augmented_orthonormal_cols sq g n x ns cur).2).2 = cur := h
          rw [augRows_cursor, augCols_cursor] at h2
          have hn : n = 0 ∨ ns = 0 := by
            rcases Nat.mul_eq_zero.mp (by omega : ns * n = 0) with h3 | h3
            · exact Or.inr h3
            · exact Or.inl h3
          have hm : m = 0 ∨ ns = 0 := by
            rcases Nat.mul_eq_zero.mp (by omega : ns * m = 0) with h3 | h3
            · exact Or.inr h3
            · exact Or.inl h3
          exact ⟨congrArg some (augCols_fst_indep sq g n x ns hn cur cur'),
            congrArg some (augRows_fst_indep sq g m y ns hm _ _)⟩

theorem svdsPost_out_cursor_fixed (oc : Oracles) (p : Prims) (n m kk : ℕ)
    (rsv : RSV) (er : EigResult) (tr : List Ev) (cur cur' : ℕ)
    (hfix : (svdsPost oc p n m kk rsv er cur tr).cursor = cur) :
    (svdsPost oc p n m kk rsv er cur tr).out =
      (svdsPost oc p n m kk rsv er cur' tr).out := by
  rcases hc : classify oc.sq er.eigvals er.dchar with e | c
  · rw [svdsPost_classify_error oc p n m kk rsv er cur tr e hc,
      svdsPost_classify_error oc p n m kk rsv er cur' tr e hc]
  · by_cases hr : rsv = RSV.novecs
    · subst hr
      rw [svdsPost_novecs oc p n m kk er cur tr c hc,
        svdsPost_novecs oc p n m kk er cur' tr c hc]
    · have hfix2 : (augStage oc.sq oc.g n m (kk - c.nlarge)
          (vectorStage p (decide (n > m)) rsv er.eigvec c.mask c.slarge) cur).2.2 = cur := by
        rw [svdsPost_vecs oc p n m kk rsv er cur tr c hc hr] at hfix
        exact hfix
      obtain ⟨h1, h2⟩ := augStage_out_indep oc.sq oc.g n m (kk - c.nlarge) _ cur cur' hfix2
      rw [svdsPost_vecs oc p n m kk rsv er cur tr c hc hr,
        svdsPost_vecs oc p n m kk rsv er cur' tr c hc hr, h1, h2]

/-- C1 (amended): a successful vector-returning call has `u` absent exactly
when `n > m` and right-only (`'vh'`) was requested, and `vh` absent exactly
when `n <= m` and left-only (`'u'`) was requested — so with mode `'u'` the
right vectors are still returned whenever `n > m` (they are a free transpose
of the Gram eigenvectors), and with mode `'vh'` the left vectors are still
returned whenever `n <= m`; only values-only mode omits both sides. -/
theorem C1_sides_presence (oc : Oracles) (A : AIn) (k : ℕ) (ncv : Option ℕ)
    (tol : ℚ) (which : String) (v0 : Option (List ℚ)) (maxiter : Option ℕ)
    (rsv : RSV) (solver : Option String) (cur : ℕ) :
    (∀ u s vh,
      (svds oc A k ncv tol which v0 maxiter rsv solver cur).out = .ok (.triple u s vh) →
      (u = none ↔ (rowsOf A > colsOf A ∧ rsv = RSV.vh)) ∧
      (vh = none ↔ (¬ rowsOf A > colsOf A ∧ rsv = RSV.u))) ∧
    (∀ o, (svds oc A k ncv tol which v0 maxiter RSV.novecs solver cur).out = .ok o →
      ∃ s, o = SvdsOut.vals s) := by
  constructor
  · intro u s vh hout
    by_cases hw : which = "LM" ∨ which = "SM"
    · by_cases hk2 : k = 0 ∨ min (rowsOf A) (colsOf A) ≤ k
      · rw [svds_kErr oc A k ncv tol which v0 maxiter rsv solver cur hw hk2] at hout
        simp at hout
      · by_cases hs : solver = some "lobpcg"
        · rw [svds_lobpcg oc A k ncv tol which v0 maxiter rsv solver cur hw hk2 hs] at hout
          exact svdsPost_triple_presence _ _ _ _ _ _ _ _ _ _ _ _ hout
        · by_cases hs2 : solver = some "arpack" ∨ solver = none
          · rw [svds_arpack oc A k ncv tol which v0 maxiter rsv solver cur hw hk2 hs hs2]
              at hout
            exact svdsPost_triple_presence _ _ _ _ _ _ _ _ _ _ _ _ hout
          · rw [svds_solverErr oc A k ncv tol which v0 maxiter rsv solver cur hw hk2 hs hs2]
              at hout
            simp at hout
    · rw [svds_whichErr oc A k ncv tol which v0 maxiter rsv solver cur hw] at hout
      simp at hout
  · intro o hout
    by_cases hw : which = "LM" ∨ which = "SM"
    · by_cases hk2 : k = 0 ∨ min (rowsOf A) (colsOf A) ≤ k
      · rw [svds_kErr oc A k ncv tol which v0 maxiter RSV.novecs solver cur hw hk2] at hout
        simp at hout
      · by_cases hs : solver = some "lobpcg"
        · rw [svds_lobpcg oc A k ncv tol which v0 maxiter RSV.novecs solver cur hw hk2 hs]
            at hout
          rcases hc : classify oc.sq (oc.lobpcg (buildGram A) (lobpcgInitBlock oc A k v0)
              (tol ^ 2) maxiter (which = "LM")).eigvals
              (oc.lobpcg (buildGram A) (lobpcgInitBlock oc A k v0)
                (tol ^ 2) maxiter (which = "LM")).dchar with e | c
          · rw [svdsPost_classify_error _ _ _ _ _ _ _ _ _ _ hc] at hout
            simp at hout
          · rw [svdsPost_novecs _ _ _ _ _ _ _ _ _ hc] at hout
            simp only [Except.ok.injEq] at hout
            exact ⟨_, hout.symm⟩
        · by_cases hs2 : solver = some "arpack" ∨ solver = none
          · rw [svds_arpack oc A k ncv tol which v0 maxiter RSV.novecs solver cur hw hk2
              hs hs2] at hout
            rcases hc : classify oc.sq (oc.eigsh (buildGram A) k (tol ^ 2) maxiter ncv
                which v0).eigvals
                (oc.eigsh (buildGram A) k (tol ^ 2) maxiter ncv which v0).dchar with e | c
            · rw [svdsPost_classify_error _ _ _ _ _ _ _ _ _ _ hc] at hout
              simp at hout
            · rw [svdsPost_novecs _ _ _ _ _ _ _ _ _ hc] at hout
              simp only [Except.ok.injEq] at hout
              exact ⟨_, hout.symm⟩
          · rw [svds_solverErr oc A k ncv tol which v0 maxiter RSV.novecs solver cur hw
              hk2 hs hs2] at hout
            simp at hout
    · rw [svds_whichErr oc A k ncv tol which v0 maxiter RSV.novecs solver cur hw] at hout
      simp at hout

/-- C4: for every valid input, assuming the eigensolver backends return `k`
eigenvalues and the square-root oracle preserves non-negativity, a
vector-returning call yields a length-`k` singular value array that is
non-negative and sorted ascending, and the returned `u` columns and `vh`
rows are permuted by the very same `argsort` permutation applied to the
pre-sort value array. -/
theorem C4_sorted_output (oc : Oracles) (A : AIn) (k : ℕ) (ncv : Option ℕ)
    (tol : ℚ) (which : String) (v0 : Option (List ℚ)) (maxiter : Option ℕ)
    (rsv : RSV) (solver : Option String) (cur : ℕ)
    (u : Option (List (List ℚ))) (s : List ℚ) (vh : Option (List (List ℚ)))
    (hsq : ∀ x, 0 ≤ x → 0 ≤ oc.sq x)
    (hlob : ∀ G X t mi l, (oc.lobpcg G X t mi l).eigvals.length = k)
    (heig : ∀ G kk t mi nc w v, (oc.eigsh G kk t mi nc w v).eigvals.length = k)
    (hout : (svds oc A k ncv tol which v0 maxiter rsv solver cur).out =
      .ok (.triple u s vh)) :
    s.length = k ∧ (∀ x ∈ s, 0 ≤ x) ∧ List.Sorted (fun a b : ℚ => a ≤ b) s ∧
    ∃ (s0 : List ℚ) (u0 vh0 : Option (List (List ℚ))),
      s = permList (argsort s0) s0 ∧
      u = Option.map (permCols (argsort s0)) u0 ∧
      vh = Option.map (permRows (argsort s0)) vh0 ∧
      s0.length = k ∧ (∀ x ∈ s0, 0 ≤ x) := by
  by_cases hw : which = "LM" ∨ which = "SM"
  · by_cases hk2 : k = 0 ∨ min (rowsOf A) (colsOf A) ≤ k
    · rw [svds_kErr oc A k ncv tol which v0 maxiter rsv solver cur hw hk2] at hout
      simp at hout
    · by_cases hs : solver = some "lobpcg"
      · rw [svds_lobpcg oc A k ncv tol which v0 maxiter rsv solver cur hw hk2 hs] at hout
        exact svdsPost_triple_s _ _ _ _ _ _ _ _ _ _ _ _ hsq (hlob _ _ _ _ _) hout
      · by_cases hs2 : solver = some "arpack" ∨ solver = none
        · rw [svds_arpack oc A k ncv tol which v0 maxiter rsv solver cur hw hk2 hs hs2]
            at hout
          exact svdsPost_triple_s _ _ _ _ _ _ _ _ _ _ _ _ hsq (heig _ _ _ _ _ _ _) hout
        · rw [svds_solverErr oc A k ncv tol which v0 maxiter rsv solver cur hw hk2 hs hs2]
            at hout
          simp at hout
  · rw [svds_whichErr oc A k ncv tol which v0 maxiter rsv solver cur hw] at hout
    simp at hout

/-- C5: with `return_singular_vectors` false the call returns the sorted
value array right after the classifier, with no singular-vector work (no
`vectorWork` event in its trace), and that array equals the value component
of the full-vectors call on the same inputs: the value computation never
depends on the vector-side work or on the global generator state. -/
theorem C5_value_only_short_circuit (oc : Oracles) (A : AIn) (k : ℕ)
    (ncv : Option ℕ) (tol : ℚ) (which : String) (v0 : Option (List ℚ))
    (maxiter : Option ℕ) (solver : Option String) (cur cur' : ℕ)
    (v : List ℚ) (u : Option (List (List ℚ))) (s : List ℚ)
    (vh : Option (List (List ℚ)))
    (hvals : (svds oc A k ncv tol which v0 maxiter RSV.novecs solver cur).out =
      .ok (.vals v))
    (hfull : (svds oc A k ncv tol which v0 maxiter RSV.vecs solver cur').out =
      .ok (.triple u s vh)) :
    v = s ∧
    Ev.vectorWork ∉ (svds oc A k ncv tol which v0 maxiter RSV.novecs solver cur).trace := by
  by_cases hw : which = "LM" ∨ which = "SM"
  · by_cases hk2 : k = 0 ∨ min (rowsOf A) (colsOf A) ≤ k
    · rw [svds_kErr oc A k ncv tol which v0 maxiter RSV.novecs solver cur hw hk2] at hvals
      simp at hvals
    · by_cases hs : solver = some "lobpcg"
      · rw [svds_lobpcg oc A k ncv tol which v0 maxiter RSV.novecs solver cur hw hk2 hs]
          at hvals
        rw [svds_lobpcg oc A k ncv tol which v0 maxiter RSV.vecs solver cur' hw hk2 hs]
          at hfull
        rcases hc : classify oc.sq (oc.lobpcg (buildGram A) (lobpcgInitBlock oc A k v0)
            (tol ^ 2) maxiter (which = "LM")).eigvals
            (oc.lobpcg (buildGram A) (lobpcgInitBlock oc A k v0)
              (tol ^ 2) maxiter (which = "LM")).dchar with e | c
        · rw [svdsPost_classify_error _ _ _ _ _ _ _ _ _ _ hc] at hvals
          simp at hvals
        · rw [svdsPost_novecs _ _ _ _ _ _ _ _ _ hc] at hvals
          rw [svdsPost_vecs _ _ _ _ _ _ _ _ _ _ hc (by simp)] at hfull
          simp only [Except.ok.injEq, SvdsOut.vals.injEq] at hvals
          simp only [sortStage, Except.ok.injEq, SvdsOut.triple.injEq] at hfull
          constructor
          · rw [← hvals, ← hfull.2.1]
            exact npSort_eq_permList_argsort c.s
          · rw [svds_lobpcg oc A k ncv tol which v0 maxiter RSV.novecs solver cur hw hk2 hs,
              svdsPost_novecs _ _ _ _ _ _ _ _ _ hc]
            cases hp : dtypeProbePerformed A <;> simp [hp]
      · by_cases hs2 : solver = some "arpack" ∨ solver = none
        · rw [svds_arpack oc A k ncv tol which v0 maxiter RSV.novecs solver cur hw hk2
            hs hs2] at hvals
          rw [svds_arpack oc A k ncv tol which v0 maxiter RSV.vecs solver cur' hw hk2
            hs hs2] at hfull
          rcases hc : classify oc.sq (oc.eigsh (buildGram A) k (tol ^ 2) maxiter ncv
              which v0).eigvals
              (oc.eigsh (buildGram A) k (tol ^ 2) maxiter ncv which v0).dchar with e | c
          · rw [svdsPost_classify_error _ _ _ _ _ _ _ _ _ _ hc] at hvals
            simp at hvals
          · rw [svdsPost_novecs _ _ _ _ _ _ _ _ _ hc] at hvals
            rw [svdsPost_vecs _ _ _ _ _ _ _ _ _ _ hc (by simp)] at hfull
            simp only [Except.ok.injEq, SvdsOut.vals.injEq] at hvals
            simp only [sortStage, Except.ok.injEq, SvdsOut.triple.injEq] at hfull
            constructor
            · rw [← hvals, ← hfull.2.1]
              exact npSort_eq_permList_argsort c.s
            · rw [svds_arpack oc A k ncv tol which v0 maxiter RSV.novecs solver cur hw hk2
                hs hs2, svdsPost_novecs _ _ _ _ _ _ _ _ _ hc]
              cases hp : dtypeProbePerformed A <;> simp [hp]
        · rw [svds_solverErr oc A k ncv tol which v0 maxiter RSV.novecs solver cur hw hk2
            hs hs2] at hvals
          simp at hvals
  · rw [svds_whichErr oc A k ncv tol which v0 maxiter RSV.novecs solver cur hw] at hvals
    simp at hvals

/-- C6 (amended): the extremal-selector and count validations fail fast with
an empty trace; an unrecognised backend selector is also rejected with an
error and without dispatching any eigensolver work or vector work — but its
check happens only after the Gram `LinearOperator` has already been
constructed, which the trace records.  No branch produces a fallback value
in place of an error. -/
theorem C6_validation_order (oc : Oracles) (A : AIn) (k : ℕ) (ncv : Option ℕ)
    (tol : ℚ) (which : String) (v0 : Option (List ℚ)) (maxiter : Option ℕ)
    (rsv : RSV) (solver : Option String) (cur : ℕ) :
    (¬ (which = "LM" ∨ which = "SM") →
      svds oc A k ncv tol which v0 maxiter rsv solver cur = ⟨.error .whichErr, cur, []⟩) ∧
    ((which = "LM" ∨ which = "SM") → (k = 0 ∨ min (rowsOf A) (colsOf A) ≤ k) →
      svds oc A k ncv tol which v0 maxiter rsv solver cur = ⟨.error .kErr, cur, []⟩) ∧
    ((which = "LM" ∨ which = "SM") → ¬ (k = 0 ∨ min (rowsOf A) (colsOf A) ≤ k) →
      ¬ solver = some "lobpcg" → ¬ (solver = some "arpack" ∨ solver = none) →
      (svds oc A k ncv tol which v0 maxiter rsv solver cur).out = .error .solverErr ∧
      Ev.gramConstructed ∈ (svds oc A k ncv tol which v0 maxiter rsv solver cur).trace ∧
      Ev.eigsolverCalled ∉ (svds oc A k ncv tol which v0 maxiter rsv solver cur).trace ∧
      Ev.vectorWork ∉ (svds oc A k ncv tol which v0 maxiter rsv solver cur).trace) := by
  refine ⟨svds_whichErr oc A k ncv tol which v0 maxiter rsv solver cur,
    svds_kErr oc A k ncv tol which v0 maxiter rsv solver cur, ?_⟩
  intro hw hk hs1 hs2
  rw [svds_solverErr oc A k ncv tol which v0 maxiter rsv solver cur hw hk hs1 hs2]
  refine ⟨rfl, ?_, ?_, ?_⟩
  · cases hp : dtypeProbePerformed A <;> simp [hp]
  · cases hp : dtypeProbePerformed A <;> simp [hp]
  · cases hp : dtypeProbePerformed A <;> simp [hp]

/-- C7 (amended): the LOBPCG starting block is `v0` reshaped to one column
when `k = 1` and `v0` is supplied, and otherwise comes from the fixed-seed
generator `RandomState(52)`, which is a pure function of the shape; the
singular values returned by `svds` never depend on the global generator
state, and the entire output is reproducible across repeated invocations
whenever the call consumes no draws from the global generator (in
particular whenever no degenerate padding is needed).  Augmented padding
vectors, however, are drawn from the advancing global stream, so repeated
invocations need not reproduce them (see the counterexample). -/
theorem C7_lobpcg_seed_determinism (oc : Oracles) (A : AIn) (k : ℕ)
    (ncv : Option ℕ) (tol : ℚ) (which : String) (v0 : Option (List ℚ))
    (maxiter : Option ℕ) (rsv : RSV) (solver : Option String) :
    (∀ w, k = 1 → v0 = some w →
      lobpcgInitBlock oc A k v0 = w.map (fun a => [a])) ∧
    (¬ (k = 1 ∧ v0.isSome) →
      lobpcgInitBlock oc A k v0 = oc.randn52 (min (rowsOf A) (colsOf A)) k) ∧
    (∀ cur cur', resultS (svds oc A k ncv tol which v0 maxiter rsv solver cur) =
      resultS (svds oc A k ncv tol which v0 maxiter rsv solver cur')) ∧
    (∀ cur cur', (svds oc A k ncv tol which v0 maxiter rsv solver cur).cursor = cur →
      (svds oc A k ncv tol which v0 maxiter rsv solver cur).out =
        (svds oc A k ncv tol which v0 maxiter rsv solver cur').out) := by
  refine ⟨?_, ?_, ?_, ?_⟩
  · intro w hk hv
    subst hk hv
    simp [lobpcgInitBlock]
  · intro h
    simp only [lobpcgInitBlock, if_neg h]
  · intro cur cur'
    by_cases hw : which = "LM" ∨ which = "SM"
    · by_cases hk2 : k = 0 ∨ min (rowsOf A) (colsOf A) ≤ k
      · rw [svds_kErr oc A k ncv tol which v0 maxiter rsv solver cur hw hk2,
          svds_kErr oc A k ncv tol which v0 maxiter rsv solver cur' hw hk2]
        rfl
      · by_cases hs : solver = some "lobpcg"
        · rw [svds_lobpcg oc A k ncv tol which v0 maxiter rsv solver cur hw hk2 hs,
            svds_lobpcg oc A k ncv tol which v0 maxiter rsv solver cur' hw hk2 hs]
          exact svdsPost_resultS_indep _ _ _ _ _ _ _ _ _ _
        · by_cases hs2 : solver = some "arpack" ∨ solver = none
          · rw [svds_arpack oc A k ncv tol which v0 maxiter rsv solver cur hw hk2 hs hs2,
              svds_arpack oc A k ncv tol which v0 maxiter rsv solver cur' hw hk2 hs hs2]
            exact svdsPost_resultS_indep _ _ _ _ _ _ _ _ _ _
          · rw [svds_solverErr oc A k ncv tol which v0 maxiter rsv solver cur hw hk2 hs hs2,
              svds_solverErr oc A k ncv tol which v0 maxiter rsv solver cur' hw hk2 hs hs2]
            rfl
    · rw [svds_whichErr oc A k ncv tol which v0 maxiter rsv solver cur hw,
        svds_whichErr oc A k ncv tol which v0 maxiter rsv solver cur' hw]
      rfl
  · intro cur cur' hfix
    by_cases hw : which = "LM" ∨ which = "SM"
    · by_cases hk2 : k = 0 ∨ min (rowsOf A) (colsOf A) ≤ k
      · rw [svds_kErr oc A k ncv tol which v0 maxiter rsv solver cur hw hk2,
          svds_kErr oc A k ncv tol which v0 maxiter rsv solver cur' hw hk2]
      · by_cases hs : solver = some "lobpcg"
        · rw [svds_lobpcg oc A k ncv tol which v0 maxiter rsv solver cur hw hk2 hs] at hfix ⊢
          rw [svds_lobpcg oc A k ncv tol which v0 maxiter rsv solver cur' hw hk2 hs]
          exact svdsPost_out_cursor_fixed _ _ _ _ _ _ _ _ _ _ hfix
        · by_cases hs2 : solver = some "arpack" ∨ solver = none
          · rw [svds_arpack oc A k ncv tol which v0 maxiter rsv solver cur hw hk2 hs hs2]
              at hfix ⊢
            rw [svds_arpack oc A k ncv tol which v0 maxiter rsv solver cur' hw hk2 hs hs2]
            exact svdsPost_out_cursor_fixed _ _ _ _ _ _ _ _ _ _ hfix
          · rw [svds_solverErr oc A k ncv tol which v0 maxiter rsv solver cur hw hk2 hs hs2,
              svds_solverErr oc A k ncv tol which v0 maxiter rsv solver cur' hw hk2 hs hs2]
    · rw [svds_whichErr oc A k ncv tol which v0 maxiter rsv solver cur hw,
        svds_whichErr oc A k ncv tol which v0 maxiter rsv solver cur' hw]

/-! ### Concrete witnesses and counterexamples -/

theorem exSq_nonneg : ∀ x : ℚ, 0 ≤ x → 0 ≤ exSq x := by
  intro x _
  unfold exSq
  split
  · norm_num
  · split
    · norm_num
    · split
      · norm_num
      · split
        · norm_num
        · exact le_refl 0

unseal Rat.add Rat.mul Rat.sub Rat.inv List.merge List.mergeSort in
/-- C1 (counterexample): with output mode left-only (`'u'`) and a `3 × 2`
input (`n > m`), the returned right singular vectors are present (the
`1 × 2` matrix `[[1, 0]]`), not `None`, refuting the claim that the `vh`
side is absent in mode `'u'` regardless of the shape. -/
theorem C1_counterexample :
    resultVh (svds exOC exA 1 none 0 "LM" none none RSV.u (some "arpack") 0) =
      some [[1, 0]] := by decide

unseal Rat.add Rat.mul Rat.sub Rat.inv List.merge List.mergeSort in
/-- C1 (witness): the amended presence rule instantiated on the concrete
mode-`'u'` run of `C1_counterexample`. -/
theorem C1_sides_presence_witness :
    ((some [[(1 : ℚ), 0]] : Option (List (List ℚ))) = none ↔
      (¬ rowsOf exA > colsOf exA ∧ RSV.u = RSV.u)) :=
  ((C1_sides_presence exOC exA 1 none 0 "LM" none none RSV.u (some "arpack") 0).1
    (some [[1], [0], [0]]) [2] (some [[1, 0]]) (by decide)).2

unseal Rat.add Rat.mul Rat.sub Rat.inv in
/-- C2 (witness): the classifier on eigenvalues `[4, 0]` in double
precision. -/
theorem C2_cutoff_classification_witness :
    ∃ c : ClassifyOut, classify exSq [4, 0] 'd' = .ok c ∧
      c.cutoff = (if Char.toLower 'd' = 'f' then 1000 * (1 / 2 ^ 23)
          else 1000000 * (1 / 2 ^ 52)) *
        (([(4 : ℚ), 0].map (fun x => max x 0)).foldr max 0) ∧
      (∀ x ∈ [(4 : ℚ), 0].map (fun x => max x 0),
        x ≤ ([(4 : ℚ), 0].map (fun x => max x 0)).foldr max 0) ∧
      (([(4 : ℚ), 0].map (fun x => max x 0)).foldr max 0) ∈
        [(4 : ℚ), 0].map (fun x => max x 0) ∧
      c.mask = ([(4 : ℚ), 0].map (fun x => max x 0)).map
        (fun x => decide (x > c.cutoff)) ∧
      c.nlarge = (([(4 : ℚ), 0].map (fun x => max x 0)).filter
        (fun x => decide (x > c.cutoff))).length ∧
      c.s.length = 2 ∧
      (∀ i, i < c.nlarge → c.s.getD i 0 =
        exSq ((([(4 : ℚ), 0].map (fun x => max x 0)).filter
          (fun x => decide (x > c.cutoff))).getD i 0)) ∧
      (∀ i, c.nlarge ≤ i → i < 2 → c.s.getD i 0 = 0) :=
  C2_cutoff_classification exSq [4, 0] 'd' 2 rfl (by decide) (by decide)

/-- C3 (witness): the structural facts instantiated at the dense `3 × 2`
matrix `exA`. -/
theorem C3_gram_operator_witness :
    (buildGram exA).shape = (2, 2) ∧
    selectPrims exA = ⟨matVecMul [[2, 0], [0, 1], [0, 0]],
      matMatMul [[2, 0], [0, 1], [0, 0]],
      matVecMul (herm [[2, 0], [0, 1], [0, 0]]),
      matMatMul (herm [[2, 0], [0, 1], [0, 0]])⟩ :=
  ⟨(C3_gram_operator exA).1,
   (C3_gram_operator exA).2.2.2.2.2.1 [[2, 0], [0, 1], [0, 0]] 'd' rfl (by decide)⟩

unseal Rat.add Rat.mul Rat.sub Rat.inv List.merge List.mergeSort in
/-- C4 (witness): the sortedness and permutation facts instantiated on the
concrete `3 × 2`, `k = 1` full-vectors run. -/
theorem C4_sorted_output_witness :
    ([(2 : ℚ)].length = 1 ∧ (∀ x ∈ [(2 : ℚ)], 0 ≤ x) ∧
      List.Sorted (fun a b : ℚ => a ≤ b) [(2 : ℚ)] ∧
      ∃ (s0 : List ℚ) (u0 vh0 : Option (List (List ℚ))),
        [(2 : ℚ)] = permList (argsort s0) s0 ∧
        (some [[(1 : ℚ)], [0], [0]] : Option (List (List ℚ))) =
          Option.map (permCols (argsort s0)) u0 ∧
        (some [[(1 : ℚ), 0]] : Option (List (List ℚ))) =
          Option.map (permRows (argsort s0)) vh0 ∧
        s0.length = 1 ∧ (∀ x ∈ s0, 0 ≤ x)) :=
  C4_sorted_output exOC exA 1 none 0 "LM" none none RSV.vecs (some "arpack") 0
    (some [[1], [0], [0]]) [2] (some [[1, 0]]) exSq_nonneg
    (fun _ _ _ _ _ => rfl) (fun _ _ _ _ _ _ _ => rfl) (by decide)

unseal Rat.add Rat.mul Rat.sub Rat.inv List.merge List.mergeSort in
/-- C5 (witness): on the concrete `3 × 2` scenario the values-only run
returns exactly the value array of the full run and performs no vector
work. -/
theorem C5_value_only_witness :
    ([(2 : ℚ)] = [(2 : ℚ)]) ∧
    Ev.vectorWork ∉
      (svds exOC exA 1 none 0 "LM" none none RSV.novecs (some "arpack") 0).trace :=
  C5_value_only_short_circuit exOC exA 1 none 0 "LM" none none (some "arpack") 0 0
    [2] (some [[1], [0], [0]]) [2] (some [[1, 0]]) (by decide) (by decide)

unseal Rat.add Rat.mul Rat.sub Rat.inv in
/-- C6 (counterexample): with the unrecognised backend selector `"qr"` the
call does raise the backend error, but only after the Gram operator has been
constructed — its construction is in the recorded trace — refuting the
claim that the backend validation error precedes the Gram operator
construction. -/
theorem C6_counterexample :
    (svds exOC exA 1 none 0 "LM" none none RSV.vecs (some "qr") 0).out =
      .error SvdsErr.solverErr ∧
    Ev.gramConstructed ∈
      (svds exOC exA 1 none 0 "LM" none none RSV.vecs (some "qr") 0).trace := by
  constructor
  · decide
  · decide

unseal Rat.add Rat.mul Rat.sub Rat.inv in
/-- C6 (witness): the amended validation-order facts instantiated at the
concrete bad-backend call. -/
theorem C6_validation_order_witness :
    (svds exOC exA 1 none 0 "LM" none none RSV.vecs (some "qr") 0).out =
      .error SvdsErr.solverErr ∧
    Ev.gramConstructed ∈
      (svds exOC exA 1 none 0 "LM" none none RSV.vecs (some "qr") 0).trace ∧
    Ev.eigsolverCalled ∉
      (svds exOC exA 1 none 0 "LM" none none RSV.vecs (some "qr") 0).trace ∧
    Ev.vectorWork ∉
      (svds exOC exA 1 none 0 "LM" none none RSV.vecs (some "qr") 0).trace :=
  (C6_validation_order exOC exA 1 none 0 "LM" none none RSV.vecs (some "qr") 0).2.2
    (by decide) (by decide) (by decide) (by decide)

unseal Rat.add Rat.mul Rat.sub Rat.inv List.merge List.mergeSort in
/-- C7 (counterexample): two consecutive LOBPCG invocations with identical
inputs (same operator, `k`, options, oracles) on the degenerate `4 × 3`,
`k = 2` scenario return different outputs: the second call starts from the
global generator state the first call left behind, so the augmented padding
vectors differ. -/
theorem C7_counterexample :
    (svds exOC7 exA7 2 none 0 "LM" none none RSV.vecs (some "lobpcg")
        (svds exOC7 exA7 2 none 0 "LM" none none RSV.vecs (some "lobpcg") 0).cursor).out
      ≠ (svds exOC7 exA7 2 none 0 "LM" none none RSV.vecs (some "lobpcg") 0).out := by
  decide

/-- C7 (witness): when `k = 1` and a starting vector is supplied, the LOBPCG
initial block is that vector reshaped to a single column. -/
theorem C7_lobpcg_seed_witness :
    lobpcgInitBlock exOC7 exA7 1 (some [1, 2]) = [[(1 : ℚ)], [2]] :=
  (C7_lobpcg_seed_determinism exOC7 exA7 1 none 0 "LM" (some [1, 2]) none RSV.vecs
    (some "lobpcg")).1 [1, 2] rfl rfl

unseal Rat.add Rat.mul Rat.sub Rat.inv in
/-- C8 (witness): augmenting the single orthonormal column `(1, 0)` by one
drawn vector `(3, 4)` (residual `(0, 4)`, norm `4`) yields the orthonormal
pair `(1, 0), (0, 1)`. -/
theorem C8_augmentation_witness :
    (augLoop wSq wG 2 1 [[1, 0]] 0).1.take 1 = [[1, 0]] ∧
    (augLoop wSq wG 2 1 [[1, 0]] 0).1.length = 1 + 1 ∧
    orthonormalCols 2 (augLoop wSq wG 2 1 [[1, 0]] 0).1 ∧
    (∀ (mR : ℕ) (x : List (List ℚ)) (k cu : ℕ),
      augmented_orthonormal_rows wSq wG mR x k cu =
        (List.transpose (augmented_orthonormal_cols wSq wG mR (List.transpose x) k cu).1,
         (augmented_orthonormal_cols wSq wG mR (List.transpose x) k cu).2)) ∧
    (∀ (nR : ℕ) (x : List (List ℚ)) (k cu : ℕ),
      (augmented_orthonormal_cols wSq wG nR x k cu).1 =
        List.transpose (augLoop wSq wG nR k (List.transpose x) cu).1) :=
  C8_augmentation wSq wG 2 1 [[1, 0]] 0 (by constructor <;> decide) (by decide)

unseal Rat.add Rat.mul Rat.sub Rat.inv in
/-- C10 (witness): a post-solver phase whose eigenvector dtype character is
the half-precision `'e'` aborts with the lookup error. -/
theorem C10_unsupported_precision_witness :
    svdsPost exOC (selectPrims exA) 3 2 1 RSV.vecs exER10 0 [] =
      ⟨.error (.keyError (Char.toLower 'e')), 0, []⟩ ∧
    (∀ t : Char, t.toLower = 'f' ∨ t.toLower = 'd' →
      ∀ (sq : ℚ → ℚ) (ev : List ℚ), ∃ c, classify sq ev t = .ok c) :=
  C10_unsupported_precision exOC (selectPrims exA) 3 2 1 RSV.vecs exER10 0 []
    (by decide) (by decide)

end SvdsModel
